import Mathlib

set_option maxRecDepth 4000

/-!
Verification development for the "python lua modifier" repository.

Each Python module is embedded in its own namespace as executable Lean
definitions over `List Char` (Python `str` values).  Python character-class
methods (`str.isspace`, `str.isdigit`, ...) are modelled on their ASCII
fragment, which is the fragment every claim exercises; tokens keep the
source field names, with line/column bookkeeping omitted since no claim
refers to source positions.
-/

/-- Characters of a string literal, used to write concrete inputs. -/
def chs (s : String) : List Char := s.data

/-- Python `str.isspace` (ASCII fragment). -/
def pyIsSpace (c : Char) : Bool :=
  c == ' ' || c == '\t' || c == '\n' || c == '\r' || c == '\x0b' || c == '\x0c'

/-- Python `str.isdigit` (ASCII fragment). -/
def pyIsDigit (c : Char) : Bool := '0' ≤ c && c ≤ '9'

/-- Python `str.isalpha` (ASCII fragment). -/
def pyIsAlpha (c : Char) : Bool := ('a' ≤ c && c ≤ 'z') || ('A' ≤ c && c ≤ 'Z')

/-- Python `str.isalnum` (ASCII fragment). -/
def pyIsAlnum (c : Char) : Bool := pyIsAlpha c || pyIsDigit c

namespace LuaTok

/-- Token of `lua_tokenizer.py` (class `Token`); `type` is one of the
`TOKEN_TYPES` strings. -/
structure Token where
  type  : String
  value : List Char
deriving DecidableEq

/-- `KEYWORDS` of `lua_tokenizer.py` (standard Lua plus Roblox Luau extras). -/
def KEYWORDS : List (List Char) :=
  [chs "and", chs "break", chs "do", chs "else", chs "elseif", chs "end",
   chs "false", chs "for", chs "function", chs "if", chs "in", chs "local",
   chs "nil", chs "not", chs "or", chs "repeat", chs "return", chs "then",
   chs "true", chs "until", chs "while",
   chs "continue", chs "typeof", chs "export", chs "import"]

/-- `OPERATORS` of `lua_tokenizer.py`, enumerated longest first.  The source
iterates `sorted(OPERATORS, key=len, reverse=True)`; the order inside one
length class is irrelevant because two distinct operators of equal length
cannot both match the same input position. -/
def opsByLength : List (List Char) :=
  [chs "...", chs "..=",
   chs "==", chs "~=", chs "<=", chs ">=", chs "..",
   chs "+=", chs "-=", chs "*=", chs "/=",
   chs "+", chs "-", chs "*", chs "/", chs "%", chs "^", chs "#",
   chs "<", chs ">", chs "=",
   chs "(", chs ")", chs "\x7b", chs "\x7d", chs "[", chs "]",
   chs ";", chs ":", chs ",", chs "."]

/-- The string `"(){}[];:,. "` against which the source tests
`op not in "(){}[];:,. "` (a substring test) to classify `PUNCT`. -/
def punctString : List Char :=
  ['(', ')', '{', '}', '[', ']', ';', ':', ',', '.', ' ']

/-- Python substring membership `needle in hay` for strings. -/
def isSubstr (needle hay : List Char) : Bool :=
  (List.range (hay.length + 1)).any (fun i => needle.isPrefixOf (hay.drop i))

/-- Characters accepted inside a number (`re.match(r"[0-9A-Fa-fxX\.]", ...)`). -/
def numChar (c : Char) : Bool :=
  pyIsDigit c || ('a' ≤ c && c ≤ 'f') || ('A' ≤ c && c ≤ 'F') ||
    c == 'x' || c == 'X' || c == '.'

/-- Identifier-continuation characters (`isalnum() or == "_"`). -/
def identChar (c : Char) : Bool := pyIsAlnum c || c == '_'

/-- Body of the `while ... peek(2) != "]]"` loops (long comments and `[[`
strings): consume up to and including the first `]]`, or to end of input. -/
def readToRR : List Char → List Char × List Char
  | [] => ([], [])
  | [c] => ([c], [])
  | c :: c2 :: rest =>
      if c = ']' ∧ c2 = ']' then ([']', ']'], rest)
      else
        let r := readToRR (c2 :: rest)
        (c :: r.1, r.2)

/-- Body of the quoted-string loop, after the opening quote was consumed:
`\<any>` is a two-character escape, the matching quote terminates, end of
input terminates. -/
def readQuoted (quote : Char) : List Char → List Char × List Char
  | [] => ([], [])
  | [c] => ([c], [])
  | c :: c2 :: rest =>
      if c = '\\' then
        let r := readQuoted quote rest
        (c :: c2 :: r.1, r.2)
      else if c = quote then ([c], c2 :: rest)
      else
        let r := readQuoted quote (c2 :: rest)
        (c :: r.1, r.2)

/-- One iteration of `LuaTokenizer.tokenize`'s dispatch loop on nonempty
input `c :: cs`: the produced token and the remaining input. -/
def lexStep (c : Char) (cs : List Char) : Token × List Char :=
  if pyIsSpace c then
    (⟨"WHITESPACE", (c :: cs).takeWhile pyIsSpace⟩, (c :: cs).dropWhile pyIsSpace)
  else if (c :: cs).take 2 = ['-', '-'] then
    if (c :: cs).take 4 = ['-', '-', '[', '['] then
      (⟨"COMMENT", ['-', '-', '[', '['] ++ (readToRR ((c :: cs).drop 4)).1⟩,
        (readToRR ((c :: cs).drop 4)).2)
    else
      (⟨"COMMENT", (c :: cs).takeWhile (fun ch => ch ≠ '\n')⟩,
        (c :: cs).dropWhile (fun ch => ch ≠ '\n'))
  else if (c :: cs).take 2 = ['[', '['] then
    (⟨"STRING", ['[', '['] ++ (readToRR ((c :: cs).drop 2)).1⟩,
      (readToRR ((c :: cs).drop 2)).2)
  else if c = '"' ∨ c = '\'' then
    (⟨"STRING", c :: (readQuoted c cs).1⟩, (readQuoted c cs).2)
  else if pyIsDigit c then
    (⟨"NUMBER", (c :: cs).takeWhile numChar⟩, (c :: cs).dropWhile numChar)
  else if pyIsAlpha c || c = '_' then
    (⟨if (c :: cs).takeWhile identChar ∈ KEYWORDS then "KEYWORD" else "IDENTIFIER",
       (c :: cs).takeWhile identChar⟩, (c :: cs).dropWhile identChar)
  else
    match opsByLength.find? (fun op => (c :: cs).take op.length == op) with
    | some op =>
        (⟨if isSubstr op punctString then "PUNCT" else "OPERATOR", op⟩,
          (c :: cs).drop op.length)
    | none => (⟨"UNKNOWN", [c]⟩, cs)

/-- The tokenize loop; `fuel` bounds the number of iterations and
`tokenize` supplies enough fuel for any input (every iteration consumes at
least one character). -/
def tokenizeF : Nat → List Char → List Token
  | _, [] => []
  | 0, _ :: _ => []
  | fuel + 1, c :: cs =>
      let st := lexStep c cs
      st.1 :: tokenizeF fuel st.2

/-- `LuaTokenizer.tokenize` of `lua_tokenizer.py`. -/
def tokenize (l : List Char) : List Token := tokenizeF l.length l

/-- Concatenation of the token lexemes, in order. -/
def concatValues (ts : List Token) : List Char :=
  ts.foldr (fun t acc => t.value ++ acc) []

end LuaTok

namespace BlockEngine

/-- Python `str.lower` (ASCII fragment). -/
def pyLower (s : String) : String := String.mk (s.data.map Char.toLower)

/-- `BlockEngine.process` of `lua_block_engine.py`, as a recursion over the
remaining tokens.  The state is the `indent` counter (an integer clamped at
zero exactly where the source clamps it) and the sticky `mode` flag, which
is set to `"safe"` on an `UNKNOWN` token and never read back.  Every
iteration appends exactly one `(kind, value, indent)` entry. -/
def processGo (indent : Int) (mode : String) :
    List LuaTok.Token → List (String × List Char × Int)
  | [] => []
  | tok :: rest =>
    let mode1 := if tok.type = "UNKNOWN" ∧ mode ≠ "safe" then "safe" else mode
    if tok.type = "COMMENT" then
      ("comment", tok.value, indent) :: processGo indent mode1 rest
    else if tok.type = "STRING" then
      ("string", tok.value, indent) :: processGo indent mode1 rest
    else if tok.type = "KEYWORD" then
      if tok.value ∈ [chs "function", chs "do", chs "then"] then
        ("keyword", tok.value, indent) :: processGo (indent + 1) mode1 rest
      else if tok.value ∈ [chs "else", chs "elseif"] then
        ("keyword", tok.value, max 0 (indent - 1)) ::
          processGo (max 0 (indent - 1) + 1) mode1 rest
      else if tok.value ∈ [chs "end", chs "until"] then
        ("keyword", tok.value, max 0 (indent - 1)) ::
          processGo (max 0 (indent - 1)) mode1 rest
      else
        ("keyword", tok.value, indent) :: processGo indent mode1 rest
    else
      (pyLower tok.type, tok.value, indent) :: processGo indent mode1 rest

/-- `BlockEngine(tokens).process()`: indent starts at `0`, mode at `"normal"`. -/
def process (tokens : List LuaTok.Token) : List (String × List Char × Int) :=
  processGo 0 "normal" tokens

end BlockEngine

/-- Identifier-continuation characters (`isalnum() or == "_"`), shared by the
tokenizers of `deobfuscate.py`, `minify.py` and `beautify.py`. -/
def pyIdentChar (c : Char) : Bool := pyIsAlnum c || c == '_'

namespace Deob

/-- `TokenType` enum of `deobfuscate.py`. -/
inductive TokenType
  | KEYWORD | IDENTIFIER | OPERATOR | NUMBER | STRING | COMMENT | WHITESPACE | NEWLINE
deriving DecidableEq

/-- Token of `deobfuscate.py` (line/column bookkeeping omitted). -/
structure Token where
  type  : TokenType
  value : List Char
deriving DecidableEq

/-- `LuaTokenizer.KEYWORDS` of `deobfuscate.py`. -/
def KEYWORDS : List (List Char) :=
  [chs "and", chs "break", chs "do", chs "else", chs "elseif", chs "end",
   chs "false", chs "for", chs "function", chs "if", chs "in", chs "local",
   chs "nil", chs "not", chs "or", chs "repeat", chs "return", chs "then",
   chs "true", chs "until", chs "while", chs "continue"]

/-- Python `x in s` where `x` is `peek(...)` and may be `None` past the end
of input: `None in str` raises `TypeError`, modelled as `Except.error ()`. -/
def optMem (c : Option Char) (s : List Char) : Except Unit Bool :=
  match c with
  | none => .error ()
  | some ch => .ok (s.contains ch)

/-- Whitespace loop `while self.peek() in ' \t\r': ...` of
`LuaTokenizer.tokenize`: raises (via `optMem`) when the end of input is
reached inside the loop. -/
def readWsE (ws : List Char) : List Char → Except Unit (List Char × List Char)
  | [] => .error ()
  | ch :: rest =>
      if ws.contains ch then do
        let r ← readWsE ws rest
        .ok (ch :: r.1, r.2)
      else .ok ([], ch :: rest)

/-- `LuaTokenizer._read_comment` of `deobfuscate.py` (single-line comments
only), applied to the input after the two consumed `-` characters. -/
def dReadComment (rest2 : List Char) : List Char × List Char :=
  (chs "--" ++ rest2.takeWhile (fun c => c ≠ '\n'),
    rest2.dropWhile (fun c => c ≠ '\n'))

/-- Body of `LuaTokenizer._read_string` of `deobfuscate.py`, after the
opening quote: end of input or the matching quote terminates, a backslash
consumes the following character. -/
def dReadStr (q : Char) : List Char → List Char × List Char
  | [] => ([], [])
  | [c] => ([c], [])
  | c :: c2 :: rest =>
      if c = q then ([c], c2 :: rest)
      else if c = '\\' then
        let t := dReadStr q rest
        (c :: c2 :: t.1, t.2)
      else
        let t := dReadStr q (c2 :: rest)
        (c :: t.1, t.2)

/-- Matching loop of `LuaTokenizer._read_long_string` of `deobfuscate.py`:
at a `]` the closing suffix is compared character by character and consumed
on a full match; otherwise one character is consumed.  End of input
terminates. -/
def dLongBody (suffix : List Char) : List Char → List Char × List Char
  | [] => ([], [])
  | c :: rest =>
      if c = ']' ∧ suffix.isPrefixOf (c :: rest) then
        (suffix, (c :: rest).drop suffix.length)
      else
        let t := dLongBody suffix rest
        (c :: t.1, t.2)

/-- `LuaTokenizer._read_long_string` of `deobfuscate.py`, applied to the
input after the initial `[`: count the `=` level, optionally consume the
second `[`, then scan for the level-matched closing suffix. -/
def dReadLong (cs : List Char) : List Char × List Char :=
  let eqs := cs.takeWhile (fun c => c = '=')
  let r1 := cs.dropWhile (fun c => c = '=')
  let suffix := ']' :: (List.replicate eqs.length '=' ++ [']'])
  match r1 with
  | '[' :: t =>
      let b := dLongBody suffix t
      ('[' :: eqs ++ '[' :: b.1, b.2)
  | _ =>
      let b := dLongBody suffix r1
      ('[' :: eqs ++ b.1, b.2)

/-- Hex-digit characters of `_read_number`. -/
def hexNumChar (c : Char) : Bool := (chs "0123456789abcdefABCDEF_.").contains c

/-- Decimal characters of `_read_number` (`isdigit() or in '._'`). -/
def decNumChar (c : Char) : Bool := pyIsDigit c || c == '.' || c == '_'

/-- `LuaTokenizer._read_number` of `deobfuscate.py`.  The checks
`self.peek(1) in 'xX'`, `self.peek() in 'eE'` and `self.peek() in '+-'`
raise a `TypeError` when the respective `peek` is `None` (end of input). -/
def dReadNumber (l : List Char) : Except Unit (List Char × List Char) := do
  let isHex ←
    (if l.head? = some '0' then optMem l.tail.head? ['x', 'X'] else pure false)
  if isHex then
    let rest2 := l.drop 2
    .ok (l.take 2 ++ rest2.takeWhile hexNumChar, rest2.dropWhile hexNumChar)
  else
    let ds := l.takeWhile decNumChar
    let r1 := l.dropWhile decNumChar
    let isE ← optMem r1.head? ['e', 'E']
    if isE then
      let r2 := r1.tail
      let isSign ← optMem r2.head? ['+', '-']
      let sign := if isSign then r2.take 1 else []
      let r3 := if isSign then r2.tail else r2
      .ok (ds ++ r1.take 1 ++ sign ++ r3.takeWhile pyIsDigit,
        r3.dropWhile pyIsDigit)
    else
      .ok (ds, r1)

/-- Two-character operators of `deobfuscate.py`'s `_read_operator`. -/
def twoOps : List (List Char) :=
  [chs "==", chs "~=", chs "<=", chs ">=", chs "..",
   chs "+=", chs "-=", chs "*=", chs "/=", chs "^="]

/-- `LuaTokenizer._read_operator` of `deobfuscate.py`.  The `...` branch
(`two[:3] == '...'`) is dead code in the source, because `two` holds at most
two characters; it is kept verbatim. -/
def dReadOperator (c : Char) (cs : List Char) : List Char × List Char :=
  let two := c :: cs.take 1
  if twoOps.contains two then (two, cs.drop 1)
  else if two.take 3 = chs "..." then (chs "...", cs.drop 2)
  else ([c], cs)

/-- One iteration of `LuaTokenizer.tokenize`'s dispatch of `deobfuscate.py`
on nonempty input. -/
def dLexStep (c : Char) (cs : List Char) : Except Unit (Token × List Char) :=
  if ([' ', '\t', '\r'] : List Char).contains c then do
    let r ← readWsE [' ', '\t', '\r'] (c :: cs)
    .ok (⟨.WHITESPACE, r.1⟩, r.2)
  else if c = '\n' then .ok (⟨.NEWLINE, ['\n']⟩, cs)
  else if c = '-' ∧ cs.head? = some '-' then
    let r := dReadComment cs.tail
    .ok (⟨.COMMENT, r.1⟩, r.2)
  else if c = '"' ∨ c = '\'' then
    let r := dReadStr c cs
    .ok (⟨.STRING, c :: r.1⟩, r.2)
  else if c = '[' then do
    let b ← optMem cs.head? ['=', '[']
    if b then
      let r := dReadLong cs
      .ok (⟨.STRING, r.1⟩, r.2)
    else
      let r := dReadOperator c cs
      .ok (⟨.OPERATOR, r.1⟩, r.2)
  else if pyIsDigit c ∨ (c = '.' ∧ cs.head?.elim false pyIsDigit) then do
    let r ← dReadNumber (c :: cs)
    .ok (⟨.NUMBER, r.1⟩, r.2)
  else if pyIsAlpha c || c = '_' then
    .ok (⟨if (c :: cs).takeWhile pyIdentChar ∈ KEYWORDS then .KEYWORD else .IDENTIFIER,
          (c :: cs).takeWhile pyIdentChar⟩, (c :: cs).dropWhile pyIdentChar)
  else
    let r := dReadOperator c cs
    .ok (⟨.OPERATOR, r.1⟩, r.2)

/-- Tokenize loop of `deobfuscate.py`; every iteration consumes at least one
character, so `tokenize` supplies sufficient fuel. -/
def dTokenizeF : Nat → List Char → Except Unit (List Token)
  | _, [] => .ok []
  | 0, _ :: _ => .error ()
  | fuel + 1, c :: cs => do
      let st ← dLexStep c cs
      let ts ← dTokenizeF fuel st.2
      .ok (st.1 :: ts)

/-- `LuaTokenizer(code).tokenize()` of `deobfuscate.py`. -/
def tokenize (l : List Char) : Except Unit (List Token) := dTokenizeF l.length l

/-- Whitespace-token test used by `ConstantPropagator.propagate`'s
skip-loops (`NEWLINE` is a distinct type and is not skipped). -/
def isWSTok (t : Token) : Bool := t.type == .WHITESPACE

/-- Python dict: store/overwrite a key (insertion order preserved). -/
def dictInsert (d : List (List Char × List Char)) (k v : List Char) :
    List (List Char × List Char) :=
  if d.any (fun p => p.1 == k) then d.map (fun p => if p.1 == k then (k, v) else p)
  else d ++ [(k, v)]

/-- Python dict: `del d[k]` guarded by `if k in d`. -/
def dictErase (d : List (List Char × List Char)) (k : List Char) :
    List (List Char × List Char) :=
  d.filter (fun p => p.1 != k)

/-- Python dict lookup `d[k]` / `k in d`. -/
def dictFind? (d : List (List Char × List Char)) (k : List Char) :
    Option (List Char) :=
  (d.find? (fun p => p.1 == k)).map (fun p => p.2)

/-- `ConstantPropagator.propagate` of `deobfuscate.py` as a recursion over
the remaining tokens; lookahead indices `j`, `k`, `m` become whitespace
`dropWhile`s on the remaining list, and the Python bound checks
`i + 3 < len`, `j + 2 < len`, `k + 1 < len`, `m < len` become length checks
on the corresponding suffixes.  The `assignments` counter of the source is
written but never read and is omitted.  `propConsts` performs one
iteration's constant-table updates (registration at `local`, then
invalidation at `NAME =`); `propEmit` is the token appended for the
iteration; `propGo` is the loop. -/
def propConsts (constants : List (List Char × List Char)) (tok : Token)
    (rest : List Token) : List (List Char × List Char) :=
  let c1 :=
    if 4 ≤ (tok :: rest).length ∧ tok.type = .KEYWORD ∧ tok.value = chs "local" then
      match rest.dropWhile isWSTok with
      | t1 :: r1 =>
        if 3 ≤ (t1 :: r1).length ∧ t1.type = .IDENTIFIER then
          match r1.dropWhile isWSTok with
          | t2 :: r2 =>
            if 2 ≤ (t2 :: r2).length ∧ t2.type = .OPERATOR ∧ t2.value = chs "=" then
              match r2.dropWhile isWSTok with
              | t3 :: _ =>
                if t3.type = .NUMBER ∨ t3.type = .STRING then
                  dictInsert constants t1.value t3.value
                else constants
              | [] => constants
            else constants
          | [] => constants
        else constants
      | [] => constants
    else constants
  if tok.type = .IDENTIFIER ∧ rest ≠ [] then
    match rest.dropWhile isWSTok with
    | t1 :: _ =>
        if t1.type = .OPERATOR ∧ t1.value = chs "=" then dictErase c1 tok.value
        else c1
    | [] => c1
  else c1

/-- The token emitted for `tok` by one iteration of
`ConstantPropagator.propagate`'s loop, given the constants after this
iteration's registration/invalidation updates (`propConsts`): an
`IDENTIFIER` bound in the table and not followed by `=` is replaced by its
literal, everything else is appended unchanged. -/
def propEmit (c2 : List (List Char × List Char)) (tok : Token)
    (rest : List Token) : Token :=
  if tok.type = .IDENTIFIER then
    match dictFind? c2 tok.value with
    | some v =>
        let isAssign : Bool :=
          match rest.dropWhile isWSTok with
          | t1 :: _ => t1.type == .OPERATOR && t1.value == chs "="
          | [] => false
        if isAssign then tok
        else ⟨if v.head? = some '"' ∨ v.head? = some '\'' then .STRING else .NUMBER, v⟩
    | none => tok
  else tok

def propGo (constants : List (List Char × List Char)) : List Token → List Token
  | [] => []
  | tok :: rest =>
      propEmit (propConsts constants tok rest) tok rest ::
        propGo (propConsts constants tok rest) rest

/-- `ConstantPropagator.propagate`: constants start empty. -/
def propagate (tokens : List Token) : List Token := propGo [] tokens

end Deob

namespace Minify

/-- `TokenType` enum of `minify.py`. -/
inductive TokenType
  | KEYWORD | IDENTIFIER | OPERATOR | NUMBER | STRING | COMMENT | WHITESPACE | NEWLINE
deriving DecidableEq

/-- Token of `minify.py` (`type` and `value` are its only fields). -/
structure Token where
  type  : TokenType
  value : List Char
deriving DecidableEq

/-- `LuaTokenizer.KEYWORDS` of `minify.py`. -/
def KEYWORDS : List (List Char) :=
  [chs "and", chs "break", chs "do", chs "else", chs "elseif", chs "end",
   chs "false", chs "for", chs "function", chs "if", chs "in", chs "local",
   chs "nil", chs "not", chs "or", chs "repeat", chs "return", chs "then",
   chs "true", chs "until", chs "while", chs "continue"]

/-- Reading loop of `_read_comment`/`_read_long_string` of `minify.py`:
consume one character at a time into the accumulated value and stop as soon
as the value ends with the closing suffix; end of input terminates. -/
def endswithRead (suffix : List Char) (acc : List Char) :
    List Char → List Char × List Char
  | [] => (acc, [])
  | c :: rest =>
      if suffix.isSuffixOf (acc ++ [c]) then (acc ++ [c], rest)
      else endswithRead suffix (acc ++ [c]) rest

/-- `LuaTokenizer._read_comment` of `minify.py`, applied to the input after
the two consumed `-` characters.  Note: in the long-comment branch the
source consumes the `[=*[` opener without adding it to `val`, so the token
value starts directly with `--` followed by the body; when a `[` is not
followed by `[` after the `=` run, the consumed `[=*` characters are lost
and the single-line loop continues from the current position. -/
def mReadComment (rest2 : List Char) : List Char × List Char :=
  match rest2 with
  | '[' :: r1 =>
      let eqs := r1.takeWhile (fun c => c = '=')
      let r2 := r1.dropWhile (fun c => c = '=')
      match r2 with
      | '[' :: r3 =>
          endswithRead (']' :: (List.replicate eqs.length '=' ++ [']'])) (chs "--") r3
      | _ =>
          (chs "--" ++ r2.takeWhile (fun c => !(['\r', '\n'] : List Char).contains c),
            r2.dropWhile (fun c => !(['\r', '\n'] : List Char).contains c))
  | _ =>
      (chs "--" ++ rest2.takeWhile (fun c => !(['\r', '\n'] : List Char).contains c),
        rest2.dropWhile (fun c => !(['\r', '\n'] : List Char).contains c))

/-- `LuaTokenizer._read_long_string` of `minify.py`, applied to the whole
remaining input starting at the `[` (the prefix was validated by the
dispatcher). -/
def mReadLong (level : Nat) (l : List Char) : List Char × List Char :=
  let pre := '[' :: (List.replicate level '=' ++ ['['])
  endswithRead (']' :: (List.replicate level '=' ++ [']'])) pre (l.drop pre.length)

/-- Two-character operators of `minify.py`'s `_read_operator`. -/
def mTwoOps : List (List Char) :=
  [chs "==", chs "~=", chs "<=", chs ">=", chs "..", chs "//",
   chs "+=", chs "-=", chs "*=", chs "/=", chs "^="]

/-- `LuaTokenizer._read_operator` of `minify.py`: try `...`, then the
two-character table, then a single character. -/
def mReadOperator (c : Char) (cs : List Char) : List Char × List Char :=
  if c :: cs.take 2 = chs "..." then (chs "...", cs.drop 2)
  else if mTwoOps.contains (c :: cs.take 1) then (c :: cs.take 1, cs.drop 1)
  else ([c], cs)

/-- One iteration of `LuaTokenizer.tokenize`'s dispatch of `minify.py` on
nonempty input.  The `_read_string` and `_read_number` bodies are character
for character those of `deobfuscate.py` and are shared (`Deob.dReadStr`,
`Deob.dReadNumber`). -/
def mLexStep (c : Char) (cs : List Char) : Except Unit (Token × List Char) :=
  if ([' ', '\t', '\r', '\n'] : List Char).contains c then do
    let r ← Deob.readWsE [' ', '\t', '\r', '\n'] (c :: cs)
    .ok (⟨.WHITESPACE, r.1⟩, r.2)
  else if c = '-' ∧ cs.head? = some '-' then
    let r := mReadComment cs.tail
    .ok (⟨.COMMENT, r.1⟩, r.2)
  else if c = '"' ∨ c = '\'' then
    let r := Deob.dReadStr c cs
    .ok (⟨.STRING, c :: r.1⟩, r.2)
  else if c = '[' then do
    let b ← Deob.optMem cs.head? ['=', '[']
    if b then
      let eqs := cs.takeWhile (fun ch => ch = '=')
      if (cs.dropWhile (fun ch => ch = '=')).head? = some '[' then
        let r := mReadLong eqs.length (c :: cs)
        .ok (⟨.STRING, r.1⟩, r.2)
      else .ok (⟨.OPERATOR, [c]⟩, cs)
    else .ok (⟨.OPERATOR, [c]⟩, cs)
  else if pyIsDigit c ∨ (c = '.' ∧ cs.head?.elim false pyIsDigit) then do
    let r ← Deob.dReadNumber (c :: cs)
    .ok (⟨.NUMBER, r.1⟩, r.2)
  else if pyIsAlpha c || c = '_' then
    .ok (⟨if (c :: cs).takeWhile pyIdentChar ∈ KEYWORDS then .KEYWORD else .IDENTIFIER,
          (c :: cs).takeWhile pyIdentChar⟩, (c :: cs).dropWhile pyIdentChar)
  else
    let r := mReadOperator c cs
    .ok (⟨.OPERATOR, r.1⟩, r.2)

/-- Tokenize loop of `minify.py` (fuel as in the other tokenizers). -/
def mTokenizeF : Nat → List Char → Except Unit (List Token)
  | _, [] => .ok []
  | 0, _ :: _ => .error ()
  | fuel + 1, c :: cs => do
      let st ← mLexStep c cs
      let ts ← mTokenizeF fuel st.2
      .ok (st.1 :: ts)

/-- `LuaTokenizer(code).tokenize()` of `minify.py`. -/
def tokenize (l : List Char) : Except Unit (List Token) := mTokenizeF l.length l

/-- `VariableRenamer.ROBLOX_GLOBALS` of `minify.py` (the literal set; the
repeated entries of the source literal are kept). -/
def ROBLOX_GLOBALS : List (List Char) :=
  [chs "game", chs "workspace", chs "script", chs "Instance", chs "Vector3",
   chs "CFrame", chs "UDim2", chs "Color3", chs "BrickColor", chs "Enum",
   chs "wait", chs "warn", chs "print", chs "tick", chs "time",
   chs "elapsedTime", chs "spawn", chs "delay", chs "tick", chs "typeof",
   chs "spawn", chs "delay", chs "tick", chs "typeof", chs "Random",
   chs "NumberSequence", chs "ColorSequence", chs "NumberRange",
   chs "Region3", chs "Faces", chs "Axes", chs "PhysicalProperties",
   chs "Ray", chs "Rect", chs "TweenInfo", chs "PathWaypoint",
   chs "RunService", chs "Players", chs "ReplicatedStorage",
   chs "ServerStorage", chs "StarterGui", chs "StarterPlayer",
   chs "Lighting", chs "SoundService", chs "UserInputService",
   chs "ContextActionService", chs "TweenService", chs "HttpService",
   chs "MarketplaceService", chs "DataStoreService", chs "MessagingService",
   chs "TeleportService", chs "BadgeService", chs "pairs", chs "ipairs",
   chs "next", chs "select", chs "unpack", chs "table", chs "string",
   chs "math", chs "coroutine", chs "debug", chs "os", chs "io",
   chs "tonumber", chs "tostring", chs "type", chs "assert", chs "error",
   chs "pcall", chs "xpcall", chs "getmetatable", chs "setmetatable",
   chs "rawget", chs "rawset", chs "rawequal", chs "collectgarbage",
   chs "newproxy", chs "gcinfo", chs "getfenv", chs "setfenv",
   chs "loadstring", chs "require", chs "_G", chs "_VERSION", chs "shared"]

/-- `valid_singles` of `VariableRenamer.generate_short_names`. -/
def valid_singles : List Char :=
  chs "abcdefghijklmnopqrstuvwxyzABCDEFGHIJKLMNOPQRSTUVWXYZ"

/-- Second/third-position characters of generated names
(`valid_singles + '0123456789_'`). -/
def nameTail : List Char := valid_singles ++ chs "0123456789_"

/-- Single-letter names of `generate_short_names`. -/
def shortNames1 : List (List Char) := valid_singles.map (fun c => [c])

/-- The inner `c2` loop of `generate_short_names` for one first letter. -/
def twoCharGroup (c1 : Char) : List (List Char) :=
  nameTail.filterMap (fun c2 =>
    if [c1, c2] ∈ KEYWORDS then none else some [c1, c2])

/-- Two-character names of `generate_short_names` (keywords skipped). -/
def shortNames2 : List (List Char) := valid_singles.flatMap twoCharGroup

/-- The inner `c3` loop of `generate_short_names` for fixed `c1`, `c2`. -/
def threeCharInner (c1 c2 : Char) : List (List Char) :=
  nameTail.filterMap (fun c3 =>
    if [c1, c2, c3] ∈ KEYWORDS then none else some [c1, c2, c3])

/-- The `c2`/`c3` loops of `generate_short_names` for one first letter. -/
def threeCharGroup (c1 : Char) : List (List Char) :=
  nameTail.flatMap (threeCharInner c1)

/-- Three-character names of `generate_short_names` (keywords skipped). -/
def shortNames3 : List (List Char) := valid_singles.flatMap threeCharGroup

/-- `VariableRenamer.generate_short_names`: single letters, then
two-character names, then three-character names, skipping keywords. -/
def generate_short_names : List (List Char) :=
  shortNames1 ++ shortNames2 ++ shortNames3

/-- Lexicographic (code-point) order on names, the order of Python string
comparison. -/
def nameLt : List Char → List Char → Bool
  | [], [] => false
  | [], _ :: _ => true
  | _ :: _, [] => false
  | x :: xs, y :: ys => if x < y then true else if y < x then false else nameLt xs ys

/-- Python `set` of names, represented by its sorted duplicate-free
enumeration, so that the source's `sorted(local_vars)` is the
representation itself. `set.add`. -/
def setInsert : List (List Char) → List Char → List (List Char)
  | [], x => [x]
  | y :: ys, x =>
      if x = y then y :: ys
      else if nameLt x y then x :: y :: ys
      else y :: setInsert ys x

/-- Python `set.update` (union into the first argument). -/
def setUnion (dst src : List (List Char)) : List (List Char) :=
  src.foldl setInsert dst

/-- Whitespace-token test of `minify.py` passes. -/
def isWS (t : Token) : Bool := t.type == .WHITESPACE

/-- The `local` lookahead of `VariableRenamer.analyze_scope`: names of the
comma-separated identifiers after `local`, excluding `ROBLOX_GLOBALS`
members (returned in order; added to the innermost scope by the caller). -/
def localNamesGo : Nat → List Token → List (List Char)
  | 0, _ => []
  | fuel + 1, rem =>
      match rem.dropWhile isWS with
      | [] => []
      | t :: rest =>
          if t.type = .IDENTIFIER then
            let add := if t.value ∈ ROBLOX_GLOBALS then [] else [t.value]
            match rest.dropWhile isWS with
            | t2 :: rest2 =>
                if t2.value = [','] then add ++ localNamesGo fuel rest2
                else add
            | [] => add
          else []

/-- `localNamesGo` with sufficient fuel. -/
def localNames (rem : List Token) : List (List Char) :=
  localNamesGo (rem.length + 1) rem

/-- Scope-stack loop of `VariableRenamer.analyze_scope`; the head of the
list is the innermost scope (`scopes[-1]`). -/
def analyzeGo (scopes : List (List (List Char))) : List Token → List (List (List Char))
  | [] => scopes
  | tok :: rest =>
      let scopes1 :=
        if tok.type = .KEYWORD ∧
            tok.value ∈ [chs "function", chs "do", chs "if", chs "for",
              chs "while", chs "repeat"] then
          [] :: scopes
        else if tok.type = .KEYWORD ∧ tok.value ∈ [chs "end", chs "until"] then
          match scopes with
          | top :: parent :: others => setUnion parent top :: others
          | _ => scopes
        else if tok.type = .KEYWORD ∧ tok.value = chs "local" then
          match scopes with
          | top :: others => (localNames rest).foldl setInsert top :: others
          | [] => scopes
        else scopes
      analyzeGo scopes1 rest

/-- `VariableRenamer.analyze_scope`: the union of all scopes left on the
stack after the scan. -/
def analyze_scope (tokens : List Token) : List (List Char) :=
  (analyzeGo [[]] tokens).foldl setUnion []

/-- The name-assignment loop of `VariableRenamer.rename`: consume the
generated short names in order, falling back to `v<idx>` when exhausted. -/
def varMapGo : List (List Char) → List (List Char) → Nat →
    List (List Char × List Char)
  | [], _, _ => []
  | v :: vs, s :: avail, idx => (v, s) :: varMapGo vs avail (idx + 1)
  | v :: vs, [], idx => (v, 'v' :: (Nat.repr idx).data) :: varMapGo vs [] (idx + 1)

/-- The rename map of `VariableRenamer.rename` for a set of local names
(see `setInsert`: the set is its sorted enumeration, so the iteration order
is the source's `sorted(local_vars)`). -/
def build_var_map (local_vars : List (List Char)) : List (List Char × List Char) :=
  varMapGo local_vars generate_short_names 0

/-- Map lookup `tok.value in var_map` / `var_map[tok.value]`. -/
def lookupName (m : List (List Char × List Char)) (k : List Char) :
    Option (List Char) :=
  (m.find? (fun p => p.1 == k)).map (fun p => p.2)

/-- A 568-name set of locals `z100 .. z667`, listed in its sorted order
(the canonical set representation); position 567 of the generated short
names is `io`, an allow-listed identifier. -/
def manyLocals : List (List Char) :=
  (List.range 568).map (fun i => 'z' :: (Nat.repr (100 + i)).data)

/-- `VariableRenamer.rename` of `minify.py`. -/
def rename (tokens : List Token) : List Token :=
  let local_vars := analyze_scope tokens
  if local_vars = [] then tokens
  else
    let var_map := build_var_map local_vars
    tokens.map (fun tok =>
      if tok.type = .IDENTIFIER then
        match lookupName var_map tok.value with
        | some nv => ⟨.IDENTIFIER, nv⟩
        | none => tok
      else tok)

/-- `LuaMinifier.needs_space` of `minify.py`.  The two `..`-adjacency tests
of the source `return True` on success and otherwise fall through to the
`- -` test, which the translation mirrors. -/
def needs_space (prev curr : Token) : Bool :=
  if prev.type == .KEYWORD && curr.type == .KEYWORD then true
  else if prev.type == .IDENTIFIER && curr.type == .IDENTIFIER then true
  else if prev.type == .IDENTIFIER && curr.type == .KEYWORD then true
  else if prev.type == .KEYWORD && curr.type == .IDENTIFIER then true
  else if prev.type == .KEYWORD && curr.type == .NUMBER then true
  else if prev.type == .IDENTIFIER && curr.type == .NUMBER then true
  else if prev.type == .NUMBER && curr.type == .IDENTIFIER then true
  else if prev.type == .NUMBER && curr.type == .KEYWORD then true
  else if prev.type == .OPERATOR || curr.type == .OPERATOR then
    if prev.value == ['.'] && curr.value == ['.'] then false
    else if (prev.value == chs ".." || curr.value == chs "..") &&
        (curr.type == .NUMBER || curr.type == .IDENTIFIER) then true
    else if (prev.value == chs ".." || curr.value == chs "..") &&
        (prev.type == .NUMBER || prev.type == .IDENTIFIER) then true
    else if prev.value == ['-'] && curr.value == ['-'] then true
    else false
  else false

/-- Python `str.rstrip(set)`. -/
def pyRstrip (l : List Char) (set : List Char) : List Char :=
  (l.reverse.dropWhile (fun c => set.contains c)).reverse

/-- `LuaMinifier.optimize_numbers`. -/
def optimize_numbers (tokens : List Token) : List Token :=
  tokens.map (fun tok =>
    if tok.type = .NUMBER then
      let v0 := tok.value
      let v1 :=
        if v0.contains '.' && !((v0.map Char.toLower).contains 'e') then
          pyRstrip (pyRstrip v0 ['0']) ['.']
        else v0
      let v2 := if (chs "0.").isPrefixOf v1 then v1.tail else v1
      ⟨.NUMBER, v2.filter (fun c => c ≠ '_')⟩
    else tok)

/-- `LuaMinifier.optimize_strings`. -/
def optimize_strings (tokens : List Token) : List Token :=
  tokens.map (fun tok =>
    if tok.type = .STRING then
      let v := tok.value
      if v.head? = some '[' then tok
      else if v.head? = some '"' && !(v.drop 1).dropLast.contains '\'' then
        let inner := (v.drop 1).dropLast
        if inner.length < v.length - 2 || inner.contains '\\' then tok
        else ⟨.STRING, '\'' :: (inner ++ ['\''])⟩
      else if v.head? = some '\'' && !(v.drop 1).dropLast.contains '"' then
        let inner := (v.drop 1).dropLast
        if inner.length < v.length - 2 || inner.contains '\\' then tok
        else ⟨.STRING, '"' :: (inner ++ ['"'])⟩
      else ⟨.STRING, v⟩
    else tok)

/-- `LuaMinifier.remove_unnecessary_semicolons`: a semicolon is kept only
when the next token is a keyword. -/
def remove_unnecessary_semicolons : List Token → List Token
  | [] => []
  | tok :: rest =>
      if tok.type == .OPERATOR && tok.value == [';'] then
        match rest with
        | next :: _ =>
            if next.type == .KEYWORD then tok :: remove_unnecessary_semicolons rest
            else remove_unnecessary_semicolons rest
        | [] => remove_unnecessary_semicolons rest
      else tok :: remove_unnecessary_semicolons rest

/-- The reconstruction loop of `LuaMinifier.minify`: skip whitespace
tokens, inserting a space where `needs_space` requires one (`prev_tok` is
the previous emitted token). -/
def joinTokens (prev : Option Token) : List Token → List Char
  | [] => []
  | tok :: rest =>
      if tok.type == .WHITESPACE then joinTokens prev rest
      else
        (match prev with
         | some p => if needs_space p tok then [' '] else []
         | none => []) ++ tok.value ++ joinTokens (some tok) rest

/-- Character class `[+\-*/%^#=<>~,;:.(){}[\]]` of the first cleanup
`re.sub` of `LuaMinifier.minify`. -/
def punctClass (c : Char) : Bool :=
  (['+', '-', '*', '/', '%', '^', '#', '=', '<', '>', '~', ',', ';', ':',
    '.', '(', ')', '{', '}', '[', ']'] : List Char).contains c

/-- Regex word character `[a-zA-Z0-9_]`. -/
def wordChar (c : Char) : Bool := pyIsAlnum c || c == '_'

/-- The keyword alternation `(and|or|not|in)`, in the source's order. -/
def kwAlts : List (List Char) := [chs "and", chs "or", chs "not", chs "in"]

/-- `re.sub(r'\s*([+\-*/%^#=<>~,;:.(){}[\]])\s*', r'\1', ...)`: a match is
optional whitespace, one class character, optional whitespace; scanning is
leftmost and non-overlapping. -/
def subPunctF : Nat → List Char → List Char
  | 0, l => l
  | _, [] => []
  | fuel + 1, c :: r =>
      if punctClass c then c :: subPunctF fuel (r.dropWhile pyIsSpace)
      else if pyIsSpace c then
        match (c :: r).dropWhile pyIsSpace with
        | p :: rest2 =>
            if punctClass p then p :: subPunctF fuel (rest2.dropWhile pyIsSpace)
            else (c :: r).takeWhile pyIsSpace ++ subPunctF fuel (p :: rest2)
        | [] => (c :: r).takeWhile pyIsSpace
      else c :: subPunctF fuel r

def subPunct (l : List Char) : List Char := subPunctF (l.length + 1) l

/-- `re.sub(r'([a-zA-Z0-9_])(and|or|not|in)([a-zA-Z0-9_])', r'\1 \2 \3', ...)`. -/
def subKw3F : Nat → List Char → List Char
  | 0, l => l
  | _, [] => []
  | fuel + 1, c :: r =>
      if wordChar c then
        match kwAlts.find? (fun kw => kw.isPrefixOf r &&
            ((r.drop kw.length).head?.elim false wordChar)) with
        | some kw =>
            c :: ' ' :: (kw ++ (' ' :: (r.drop kw.length).take 1)) ++
              subKw3F fuel (r.drop (kw.length + 1))
        | none => c :: subKw3F fuel r
      else c :: subKw3F fuel r

def subKw3 (l : List Char) : List Char := subKw3F (l.length + 1) l

/-- `re.sub(r'(and|or|not|in)([a-zA-Z0-9_])', r'\1 \2', ...)`. -/
def subKw2aF : Nat → List Char → List Char
  | 0, l => l
  | _, [] => []
  | fuel + 1, c :: r =>
      match kwAlts.find? (fun kw => kw.isPrefixOf (c :: r) &&
          (((c :: r).drop kw.length).head?.elim false wordChar)) with
      | some kw =>
          kw ++ (' ' :: ((c :: r).drop kw.length).take 1) ++
            subKw2aF fuel ((c :: r).drop (kw.length + 1))
      | none => c :: subKw2aF fuel r

def subKw2a (l : List Char) : List Char := subKw2aF (l.length + 1) l

/-- `re.sub(r'([a-zA-Z0-9_])(and|or|not|in)', r'\1 \2', ...)`. -/
def subKw2bF : Nat → List Char → List Char
  | 0, l => l
  | _, [] => []
  | fuel + 1, c :: r =>
      if wordChar c then
        match kwAlts.find? (fun kw => kw.isPrefixOf r) with
        | some kw => c :: ' ' :: kw ++ subKw2bF fuel (r.drop kw.length)
        | none => c :: subKw2bF fuel r
      else c :: subKw2bF fuel r

def subKw2b (l : List Char) : List Char := subKw2bF (l.length + 1) l

/-- `re.sub(r'\.\.([a-zA-Z0-9_])', r'.. \1', ...)`. -/
def subDotsAF : Nat → List Char → List Char
  | 0, l => l
  | _, [] => []
  | fuel + 1, c :: r =>
      if c = '.' ∧ r.head? = some '.' ∧ (r.drop 1).head?.elim false wordChar then
        '.' :: '.' :: ' ' :: (r.drop 1).take 1 ++ subDotsAF fuel (r.drop 2)
      else c :: subDotsAF fuel r

def subDotsA (l : List Char) : List Char := subDotsAF (l.length + 1) l

/-- `re.sub(r'([a-zA-Z0-9_])\.\.', r'\1 ..', ...)`. -/
def subDotsBF : Nat → List Char → List Char
  | 0, l => l
  | _, [] => []
  | fuel + 1, c :: r =>
      if wordChar c ∧ r.take 2 = ['.', '.'] then
        c :: ' ' :: '.' :: '.' :: subDotsBF fuel (r.drop 2)
      else c :: subDotsBF fuel r

def subDotsB (l : List Char) : List Char := subDotsBF (l.length + 1) l

/-- `re.sub(r'--', r'- -', ...)`. -/
def subDashesF : Nat → List Char → List Char
  | 0, l => l
  | _, [] => []
  | fuel + 1, c :: r =>
      if c = '-' ∧ r.head? = some '-' then
        '-' :: ' ' :: '-' :: subDashesF fuel (r.drop 1)
      else c :: subDashesF fuel r

def subDashes (l : List Char) : List Char := subDashesF (l.length + 1) l

/-- Python `str.strip()` (whitespace at both ends). -/
def pyStrip (l : List Char) : List Char :=
  ((l.dropWhile pyIsSpace).reverse.dropWhile pyIsSpace).reverse

/-- `LuaMinifier.minify(code, rename_vars, aggressive)` of `minify.py`. -/
def minify (code : List Char) (rename_vars aggressive : Bool) :
    Except Unit (List Char) := do
  let tokens ← tokenize code
  let tokens := tokens.filter (fun t => t.type ≠ .COMMENT)
  let tokens :=
    if aggressive then
      remove_unnecessary_semicolons (optimize_strings (optimize_numbers tokens))
    else tokens
  let tokens := if rename_vars then rename tokens else tokens
  let minified := joinTokens none tokens
  let minified :=
    if aggressive then
      subDashes (subDotsB (subDotsA (subKw2b (subKw2a (subKw3 (subPunct minified))))))
    else minified
  .ok (pyStrip minified)

end Minify

namespace Beaut

/-- `TokenType` enum of `beautify.py` (with its extra `PUNCTUATION`). -/
inductive TokenType
  | KEYWORD | IDENTIFIER | OPERATOR | NUMBER | STRING | COMMENT | WHITESPACE
  | NEWLINE | PUNCTUATION
deriving DecidableEq

/-- Token of `beautify.py` (line/column bookkeeping omitted). -/
structure Token where
  type  : TokenType
  value : List Char
deriving DecidableEq

/-- `LuaTokenizer.KEYWORDS` of `beautify.py`. -/
def KEYWORDS : List (List Char) :=
  [chs "and", chs "break", chs "do", chs "else", chs "elseif", chs "end",
   chs "false", chs "for", chs "function", chs "if", chs "in", chs "local",
   chs "nil", chs "not", chs "or", chs "repeat", chs "return", chs "then",
   chs "true", chs "until", chs "while", chs "continue"]

/-- `LuaTokenizer._read_comment` of `beautify.py`, applied to the input
after the two consumed `-` characters.  In the long-comment branch the
whole `--[=*[` opener is part of the token value (it is passed as `prefix`
to `_read_long_bracket_content`, whose matching loop is shared with
`deobfuscate.py`'s via `Deob.dLongBody`); when the second `[` is missing
the consumed `[=*` characters are lost and the single-line loop continues
from the current position. -/
def bReadComment (rest2 : List Char) : List Char × List Char :=
  match rest2 with
  | '[' :: r1 =>
      let eqs := r1.takeWhile (fun c => c = '=')
      let r2 := r1.dropWhile (fun c => c = '=')
      match r2 with
      | '[' :: r3 =>
          let b := Deob.dLongBody (']' :: (List.replicate eqs.length '=' ++ [']'])) r3
          (chs "--[" ++ eqs ++ ('[' :: b.1), b.2)
      | _ =>
          (chs "--" ++ r2.takeWhile (fun c => c ≠ '\n'),
            r2.dropWhile (fun c => c ≠ '\n'))
  | _ =>
      (chs "--" ++ rest2.takeWhile (fun c => c ≠ '\n'),
        rest2.dropWhile (fun c => c ≠ '\n'))

/-- `LuaTokenizer._read_long_string` of `beautify.py`, applied to the whole
remaining input starting at the `[`. -/
def bReadLong (level : Nat) (l : List Char) : List Char × List Char :=
  let pre := '[' :: (List.replicate level '=' ++ ['['])
  let b := Deob.dLongBody (']' :: (List.replicate level '=' ++ [']'])) (l.drop pre.length)
  (pre ++ b.1, b.2)

/-- `LuaTokenizer._read_operator` of `beautify.py`.  The disjunct
`three[:2] in ('../=', )` of the source compares a two-character string to
a four-character one and is dead code; it is kept verbatim. -/
def bReadOperator (c : Char) (cs : List Char) : List Char × List Char :=
  let three := c :: cs.take 2
  if three = chs "..." ∨ three.take 2 = chs "../=" then
    if three = chs "..." then (chs "...", cs.drop 2) else (three.take 2, cs.drop 1)
  else if Deob.twoOps.contains (c :: cs.take 1) then (c :: cs.take 1, cs.drop 1)
  else ([c], cs)

/-- One iteration of `LuaTokenizer.tokenize`'s dispatch of `beautify.py`:
non-newline whitespace is consumed without emitting any token. -/
def bLexStep (c : Char) (cs : List Char) : Except Unit (Option Token × List Char) :=
  if ([' ', '\t', '\r'] : List Char).contains c then .ok (none, cs)
  else if c = '\n' then .ok (some ⟨.NEWLINE, ['\n']⟩, cs)
  else if c = '-' ∧ cs.head? = some '-' then
    let r := bReadComment cs.tail
    .ok (some ⟨.COMMENT, r.1⟩, r.2)
  else if c = '"' ∨ c = '\'' then
    let r := Deob.dReadStr c cs
    .ok (some ⟨.STRING, c :: r.1⟩, r.2)
  else if c = '[' then do
    let b ← Deob.optMem cs.head? ['=', '[']
    if b then
      let eqs := cs.takeWhile (fun ch => ch = '=')
      if (cs.dropWhile (fun ch => ch = '=')).head? = some '[' then
        let r := bReadLong eqs.length (c :: cs)
        .ok (some ⟨.STRING, r.1⟩, r.2)
      else
        let r := bReadOperator c cs
        .ok (some ⟨.OPERATOR, r.1⟩, r.2)
    else
      let r := bReadOperator c cs
      .ok (some ⟨.OPERATOR, r.1⟩, r.2)
  else if pyIsDigit c ∨ (c = '.' ∧ cs.head?.elim false pyIsDigit) then do
    let r ← Deob.dReadNumber (c :: cs)
    .ok (some ⟨.NUMBER, r.1⟩, r.2)
  else if pyIsAlpha c || c = '_' then
    .ok (some ⟨if (c :: cs).takeWhile pyIdentChar ∈ KEYWORDS then .KEYWORD else .IDENTIFIER,
          (c :: cs).takeWhile pyIdentChar⟩, (c :: cs).dropWhile pyIdentChar)
  else
    let r := bReadOperator c cs
    .ok (some ⟨.OPERATOR, r.1⟩, r.2)

/-- Tokenize loop of `beautify.py`. -/
def bTokenizeF : Nat → List Char → Except Unit (List Token)
  | _, [] => .ok []
  | 0, _ :: _ => .error ()
  | fuel + 1, c :: cs => do
      let st ← bLexStep c cs
      let ts ← bTokenizeF fuel st.2
      match st.1 with
      | some t => .ok (t :: ts)
      | none => .ok ts

/-- `LuaTokenizer(code).tokenize()` of `beautify.py`. -/
def tokenize (l : List Char) : Except Unit (List Token) := bTokenizeF l.length l

end Beaut

namespace Deob

/-- Quote characters (`["\']` in the source regexes). -/
def isQuote (c : Char) : Bool := c == '"' || c == '\''

/-- Python `chr`: `none` where `chr` raises `ValueError` (negative or
`> 0x10FFFF`).  Python additionally accepts surrogate code points, which
`Char` cannot represent; those also yield `none` here (no claim reaches
them). -/
def pyChr (n : Int) : Option Char :=
  if 0 ≤ n ∧ n < 0x110000 ∧ ¬(0xD800 ≤ n ∧ n ≤ 0xDFFF) then
    some (Char.ofNat n.toNat)
  else none

/-- Value of decimal digits. -/
def natOfDigits (l : List Char) : Nat :=
  l.foldl (fun acc c => acc * 10 + (c.toNat - '0'.toNat)) 0

def isHexDigit (c : Char) : Bool :=
  pyIsDigit c || ('a' ≤ c && c ≤ 'f') || ('A' ≤ c && c ≤ 'F')

def hexDigitVal (c : Char) : Nat :=
  if pyIsDigit c then c.toNat - '0'.toNat
  else if 'a' ≤ c && c ≤ 'f' then c.toNat - 'a'.toNat + 10
  else c.toNat - 'A'.toNat + 10

def natOfHexDigits (l : List Char) : Nat :=
  l.foldl (fun acc c => acc * 16 + hexDigitVal c) 0

/-- Python `int(n)` on a stripped argument: optional sign and decimal
digits (`None` on anything else; the underscore-grouping forms accepted by
CPython are not modelled, no claim reaches them). -/
def pyIntDec (l : List Char) : Option Int :=
  match l with
  | '-' :: rest =>
      if rest ≠ [] ∧ rest.all pyIsDigit then some (-(natOfDigits rest : Int)) else none
  | '+' :: rest =>
      if rest ≠ [] ∧ rest.all pyIsDigit then some (natOfDigits rest : Int) else none
  | _ => if l ≠ [] ∧ l.all pyIsDigit then some (natOfDigits l : Int) else none

/-- Python `int(n, 16)` for arguments starting `0x`/`0X`. -/
def pyIntHex (l : List Char) : Option Int :=
  let body := l.drop 2
  if body ≠ [] ∧ body.all isHexDigit then some (natOfHexDigits body : Int) else none

/-- `StringDecoder.decode_char_codes`'s per-number loop. -/
def decodeCodesGo : List (List Char) → Option (List Char)
  | [] => some []
  | n :: rest =>
      if n = [] then decodeCodesGo rest
      else do
        let v ← if (chs "0x").isPrefixOf n ∨ (chs "0X").isPrefixOf n
                then pyIntHex n else pyIntDec n
        let c ← pyChr v
        let tl ← decodeCodesGo rest
        some (c :: tl)

/-- `StringDecoder.decode_char_codes`: split on commas, strip, parse each
code (hex or decimal), `chr` it; any failure yields `None`. -/
def decode_char_codes (nums_str : List Char) : Option (List Char) :=
  decodeCodesGo ((nums_str.splitOn ',').map Minify.pyStrip)

/-- The `re.sub(r'string\.char\s*\(([^)]+)\)', ...)` of
`Deobfuscator.deobfuscate_internal` (phase 1): the replacement is the
decoded literal in double quotes when `decode_char_codes` yields a
non-empty (truthy) string, otherwise the match is kept. -/
def subStringCharF : Nat → List Char → List Char
  | 0, l => l
  | _, [] => []
  | fuel + 1, c :: r =>
      if (chs "string.char").isPrefixOf (c :: r) then
        let after := (c :: r).drop 11
        let ws := after.takeWhile pyIsSpace
        match after.drop ws.length with
        | '(' :: a3 =>
            let args := a3.takeWhile (fun ch => ch ≠ ')')
            match a3.drop args.length with
            | ')' :: a5 =>
                if args ≠ [] then
                  let matched := chs "string.char" ++ ws ++ '(' :: (args ++ [')'])
                  (match decode_char_codes args with
                   | some s => if s ≠ [] then '"' :: (s ++ ['"']) else matched
                   | none => matched) ++ subStringCharF fuel a5
                else c :: subStringCharF fuel r
            | _ => c :: subStringCharF fuel r
        | _ => c :: subStringCharF fuel r
      else c :: subStringCharF fuel r

def subStringChar (l : List Char) : List Char := subStringCharF (l.length + 1) l

/-- First alternative of `StringDecoder.decode_byte_codes`'s pattern:
`string\.byte\s*\(\s*["\'](.)["\']\s*\)`. -/
def tryByteA (l : List Char) : Option (Char × List Char) :=
  if (chs "string.byte").isPrefixOf l then
    match (l.drop 11).dropWhile pyIsSpace with
    | '(' :: a2 =>
        match a2.dropWhile pyIsSpace with
        | q1 :: ch :: q2 :: a4 =>
            if isQuote q1 ∧ ch ≠ '\n' ∧ isQuote q2 then
              match a4.dropWhile pyIsSpace with
              | ')' :: a5 => some (ch, a5)
              | _ => none
            else none
        | _ => none
    | _ => none
  else none

/-- Second alternative: `["\'](.)["\']:byte\(\)`. -/
def tryByteB (l : List Char) : Option (Char × List Char) :=
  match l with
  | q1 :: ch :: q2 :: rest =>
      if isQuote q1 ∧ ch ≠ '\n' ∧ isQuote q2 ∧ (chs ":byte()").isPrefixOf rest then
        some (ch, rest.drop 7)
      else none
  | _ => none

/-- `StringDecoder.decode_byte_codes`: each match is replaced by
`str(ord(char))`. -/
def subByteF : Nat → List Char → List Char
  | 0, l => l
  | _, [] => []
  | fuel + 1, c :: r =>
      match tryByteA (c :: r) with
      | some (ch, rest) => (Nat.repr ch.toNat).data ++ subByteF fuel rest
      | none =>
          match tryByteB (c :: r) with
          | some (ch, rest) => (Nat.repr ch.toNat).data ++ subByteF fuel rest
          | none => c :: subByteF fuel r

def decode_byte_codes (l : List Char) : List Char := subByteF (l.length + 1) l

/-- `re.sub(r'\\x([0-9A-Fa-f]{2})', ...)` of `StringDecoder.decode_escapes`. -/
def subHexEscF : Nat → List Char → List Char
  | 0, l => l
  | _, [] => []
  | fuel + 1, c :: r =>
      if c = '\\' then
        match r with
        | 'x' :: h1 :: h2 :: r2 =>
            if isHexDigit h1 ∧ isHexDigit h2 then
              Char.ofNat (16 * hexDigitVal h1 + hexDigitVal h2) :: subHexEscF fuel r2
            else c :: subHexEscF fuel r
        | _ => c :: subHexEscF fuel r
      else c :: subHexEscF fuel r

/-- `re.sub(r'\\(\d{1,3})', ...)` of `decode_escapes` (greedy, at most
three digits; the value is at most 999, always a valid `chr`). -/
def subDecEscF : Nat → List Char → List Char
  | 0, l => l
  | _, [] => []
  | fuel + 1, c :: r =>
      if c = '\\' then
        let ds := (r.takeWhile pyIsDigit).take 3
        if ds ≠ [] then
          Char.ofNat (natOfDigits ds) :: subDecEscF fuel (r.drop ds.length)
        else c :: subDecEscF fuel r
      else c :: subDecEscF fuel r

/-- `re.sub(r'\\u\{([0-9A-Fa-f]+)\}', ...)` of `decode_escapes`: `chr` of a
too-large value raises (uncaught inside `decode_escapes`), modelled as
`Except.error`. -/
def subUniEscF : Nat → List Char → Except Unit (List Char)
  | 0, l => .ok l
  | _, [] => .ok []
  | fuel + 1, c :: r =>
      if c = '\\' then
        match r with
        | 'u' :: '{' :: r2 =>
            let hx := r2.takeWhile isHexDigit
            (match r2.drop hx.length with
             | '}' :: r3 =>
                 if hx ≠ [] then
                   match pyChr (natOfHexDigits hx : Int) with
                   | some ch => (subUniEscF fuel r3).map (fun t => ch :: t)
                   | none => .error ()
                 else (subUniEscF fuel r).map (fun t => c :: t)
             | _ => (subUniEscF fuel r).map (fun t => c :: t))
        | _ => (subUniEscF fuel r).map (fun t => c :: t)
      else (subUniEscF fuel r).map (fun t => c :: t)

/-- `StringDecoder.decode_escapes`: hex, then decimal, then unicode-brace
escapes. -/
def decode_escapes (s : List Char) : Except Unit (List Char) :=
  subUniEscF (s.length + 1)
    (subDecEscF (s.length + 1) (subHexEscF (s.length + 1) s))

/-- Body scanner for the string-literal regex alternatives
`"(?:[^"\\]|\\.)*"` and `'(?:[^'\\]|\\.)*'`, applied after the opening
quote; returns the matched text after the opening quote (closing quote
included) and the rest.  With `dotall` unset, `\\.` cannot take a newline
(the lone-character class still can). -/
def scanLitBody (dotall : Bool) (q : Char) : List Char → Option (List Char × List Char)
  | [] => none
  | [c] => if c = q then some ([c], []) else none
  | c :: c2 :: r =>
      if c = q then some ([c], c2 :: r)
      else if c = '\\' then
        if c2 = '\n' ∧ ¬dotall then none
        else (scanLitBody dotall q r).map (fun p => (c :: c2 :: p.1, p.2))
      else (scanLitBody dotall q (c2 :: r)).map (fun p => (c :: p.1, p.2))

/-- Python string-literal decoding (`ast.literal_eval` on a single quoted
string token): standard escapes, octal, `\xHH`, `\uXXXX`, `\UXXXXXXXX`;
a raw newline or a malformed escape is a syntax error (`none`); an
unrecognized escape keeps the backslash.  `\N{...}` names are not
modelled. -/
def strLitBodyF : Nat → Char → List Char → Option (List Char)
  | 0, _, _ => none
  | fuel + 1, q, l =>
      match l with
      | [] => none
      | c :: r =>
          if c = q then (if r = [] then some [] else none)
          else if c = '\n' ∨ c = '\r' then none
          else if c = '\\' then
            match r with
            | [] => none
            | e :: r2 =>
                if e = '\n' then strLitBodyF fuel q r2
                else if e = '\\' ∨ e = '\'' ∨ e = '"' then
                  (strLitBodyF fuel q r2).map (fun t => e :: t)
                else if e = 'n' then (strLitBodyF fuel q r2).map (fun t => '\n' :: t)
                else if e = 't' then (strLitBodyF fuel q r2).map (fun t => '\t' :: t)
                else if e = 'r' then (strLitBodyF fuel q r2).map (fun t => '\r' :: t)
                else if e = 'a' then (strLitBodyF fuel q r2).map (fun t => '\x07' :: t)
                else if e = 'b' then (strLitBodyF fuel q r2).map (fun t => '\x08' :: t)
                else if e = 'f' then (strLitBodyF fuel q r2).map (fun t => '\x0c' :: t)
                else if e = 'v' then (strLitBodyF fuel q r2).map (fun t => '\x0b' :: t)
                else if '0' ≤ e ∧ e ≤ '7' then
                  let os := (r2.takeWhile (fun d => '0' ≤ d ∧ d ≤ '7')).take 2
                  let v := (e :: os).foldl (fun acc d => acc * 8 + (d.toNat - '0'.toNat)) 0
                  (strLitBodyF fuel q (r2.drop os.length)).map (fun t => Char.ofNat v :: t)
                else if e = 'x' then
                  let hx := (r2.takeWhile isHexDigit).take 2
                  if hx.length = 2 then
                    (strLitBodyF fuel q (r2.drop 2)).map
                      (fun t => Char.ofNat (natOfHexDigits hx) :: t)
                  else none
                else if e = 'u' then
                  let hx := (r2.takeWhile isHexDigit).take 4
                  if hx.length = 4 then do
                    let ch ← pyChr (natOfHexDigits hx : Int)
                    (strLitBodyF fuel q (r2.drop 4)).map (fun t => ch :: t)
                  else none
                else if e = 'U' then
                  let hx := (r2.takeWhile isHexDigit).take 8
                  if hx.length = 8 then do
                    let ch ← pyChr (natOfHexDigits hx : Int)
                    (strLitBodyF fuel q (r2.drop 8)).map (fun t => ch :: t)
                  else none
                else if e = 'N' then none
                else (strLitBodyF fuel q r2).map (fun t => '\\' :: e :: t)
          else (strLitBodyF fuel q r).map (fun t => c :: t)

/-- `ast.literal_eval` on a whole quoted string token. -/
def parsePyStrLit (l : List Char) : Option (List Char) :=
  match l with
  | q :: rest => if isQuote q then strLitBodyF (l.length + 1) q rest else none
  | [] => none

/-- Quote character chosen by Python `repr` of a string. -/
def pyReprQuote (s : List Char) : Char :=
  if s.contains '\'' ∧ ¬s.contains '"' then '"' else '\''

def hex2 (n : Nat) : List Char :=
  let dig := fun d => if d < 10 then Char.ofNat ('0'.toNat + d)
                      else Char.ofNat ('a'.toNat + (d - 10))
  [dig (n / 16 % 16), dig (n % 16)]

/-- One character of Python `repr` output (printable non-ASCII is kept
as-is, matching `repr` for the printable range; no claim reaches other
code points). -/
def pyReprChar (q c : Char) : List Char :=
  if c = '\\' ∨ c = q then ['\\', c]
  else if c = '\n' then chs "\\n"
  else if c = '\r' then chs "\\r"
  else if c = '\t' then chs "\\t"
  else if c.toNat < 32 ∨ c.toNat = 127 then chs "\\x" ++ hex2 c.toNat
  else [c]

/-- Python `repr` of a string. -/
def pyRepr (s : List Char) : List Char :=
  let q := pyReprQuote s
  q :: (s.flatMap (pyReprChar q) ++ [q])

/-- `StringDecoder.process_string_literals`: every quoted-string match is
re-evaluated, escape-decoded and re-`repr`ed; any failure keeps the
original literal. -/
def subLiteralsF : Nat → List Char → List Char
  | 0, l => l
  | _, [] => []
  | fuel + 1, c :: r =>
      if isQuote c then
        match scanLitBody false c r with
        | some (b, rest) =>
            let tokenTxt := c :: b
            (match parsePyStrLit tokenTxt with
             | some v =>
                 match decode_escapes v with
                 | .ok d => pyRepr d
                 | .error _ => tokenTxt
             | none => tokenTxt) ++ subLiteralsF fuel rest
        | none => c :: subLiteralsF fuel r
      else c :: subLiteralsF fuel r

def process_string_literals (l : List Char) : List Char :=
  subLiteralsF (l.length + 1) l

/-- `ExpressionEvaluator.ALLOWED_OPS` (the `'//'` member of the source set
can never equal a single character and is omitted from the character
list). -/
def ALLOWED_OPS : List Char :=
  ['+', '-', '*', '/', '%', '^', '(', ')', '.', ' ', '\t', '\n']

/-- `ExpressionEvaluator.is_safe_numeric`. -/
def is_safe_numeric (expr : List Char) : Bool :=
  expr.all (fun c => pyIsDigit c || ALLOWED_OPS.contains c)

/-- Value of the modelled Python arithmetic `eval`: an exact rational plus
a flag recording whether Python would hold it as a `float`.  Python floats
are IEEE doubles; the model keeps exact rationals and declines (`none`)
where only a binary-rounded representation exists.  No claim evaluates any
arithmetic, so only totality of the definitions matters. -/
structure PyNum where
  val : Rat
  isFloat : Bool

def pyAdd (a b : PyNum) : PyNum := ⟨a.val + b.val, a.isFloat || b.isFloat⟩
def pySub (a b : PyNum) : PyNum := ⟨a.val - b.val, a.isFloat || b.isFloat⟩
def pyMul (a b : PyNum) : PyNum := ⟨a.val * b.val, a.isFloat || b.isFloat⟩

def pyDiv (a b : PyNum) : Option PyNum :=
  if b.val = 0 then none else some ⟨a.val / b.val, true⟩

def pyFloorDiv (a b : PyNum) : Option PyNum :=
  if b.val = 0 then none
  else some ⟨((a.val / b.val).floor : Int), a.isFloat || b.isFloat⟩

def pyMod (a b : PyNum) : Option PyNum :=
  if b.val = 0 then none
  else some ⟨a.val - b.val * ((a.val / b.val).floor : Int), a.isFloat || b.isFloat⟩

def pyPow (a b : PyNum) : Option PyNum :=
  if b.val.den = 1 then
    if 0 ≤ b.val.num then some ⟨a.val ^ b.val.num.toNat, a.isFloat || b.isFloat⟩
    else if a.val = 0 then none
    else some ⟨(a.val ^ (-b.val.num).toNat)⁻¹, true⟩
  else none

/-- Numeric literal of the safe expression grammar (digits with an
optional decimal point). -/
def parseNumTok (l : List Char) : Option (PyNum × List Char) :=
  let ip := l.takeWhile pyIsDigit
  match l.drop ip.length with
  | '.' :: r2 =>
      let fp := r2.takeWhile pyIsDigit
      if ip = [] ∧ fp = [] then none
      else
        some (⟨(natOfDigits ip : Rat) + (natOfDigits fp : Rat) / ((10 : Rat) ^ fp.length),
               true⟩, r2.drop fp.length)
  | _ =>
      if ip = [] then none
      else some (⟨(natOfDigits ip : Rat), false⟩, l.drop ip.length)

mutual

/-- `expr := term (('+'|'-') term)*`. -/
def parseE : Nat → List Char → Option (PyNum × List Char)
  | 0, _ => none
  | fuel + 1, l => do
      let (x, r) ← parseT fuel l
      parseEChain fuel x r

def parseEChain : Nat → PyNum → List Char → Option (PyNum × List Char)
  | 0, _, _ => none
  | fuel + 1, acc, l =>
      match l.dropWhile pyIsSpace with
      | '+' :: r => do
          let (y, r2) ← parseT fuel r
          parseEChain fuel (pyAdd acc y) r2
      | '-' :: r => do
          let (y, r2) ← parseT fuel r
          parseEChain fuel (pySub acc y) r2
      | r => some (acc, r)

/-- `term := factor (('*'|'//'|'/'|'%') factor)*` (with `**` already bound
at the power level). -/
def parseT : Nat → List Char → Option (PyNum × List Char)
  | 0, _ => none
  | fuel + 1, l => do
      let (x, r) ← parseU fuel l
      parseTChain fuel x r

def parseTChain : Nat → PyNum → List Char → Option (PyNum × List Char)
  | 0, _, _ => none
  | fuel + 1, acc, l =>
      match l.dropWhile pyIsSpace with
      | '*' :: '*' :: _ => none
      | '*' :: r => do
          let (y, r2) ← parseU fuel r
          parseTChain fuel (pyMul acc y) r2
      | '/' :: '/' :: r => do
          let (y, r2) ← parseU fuel r
          let v ← pyFloorDiv acc y
          parseTChain fuel v r2
      | '/' :: r => do
          let (y, r2) ← parseU fuel r
          let v ← pyDiv acc y
          parseTChain fuel v r2
      | '%' :: r => do
          let (y, r2) ← parseU fuel r
          let v ← pyMod acc y
          parseTChain fuel v r2
      | r => some (acc, r)

/-- `unary := ('+'|'-')* power`. -/
def parseU : Nat → List Char → Option (PyNum × List Char)
  | 0, _ => none
  | fuel + 1, l =>
      match l.dropWhile pyIsSpace with
      | '+' :: r => parseU fuel r
      | '-' :: r => do
          let (x, r2) ← parseU fuel r
          some (⟨-x.val, x.isFloat⟩, r2)
      | r => parseP fuel r

/-- `power := atom ('**' unary)?` (right associative). -/
def parseP : Nat → List Char → Option (PyNum × List Char)
  | 0, _ => none
  | fuel + 1, l => do
      let (x, r) ← parseAtom fuel l
      match r.dropWhile pyIsSpace with
      | '*' :: '*' :: r2 => do
          let (y, r3) ← parseU fuel r2
          let v ← pyPow x y
          some (v, r3)
      | _ => some (x, r)

def parseAtom : Nat → List Char → Option (PyNum × List Char)
  | 0, _ => none
  | fuel + 1, l =>
      match l.dropWhile pyIsSpace with
      | '(' :: r => do
          let (x, r2) ← parseE fuel r
          match r2.dropWhile pyIsSpace with
          | ')' :: r3 => some (x, r3)
          | _ => none
      | r => parseNumTok r

end

/-- Decimal string of an integer (Python `str(int)`). -/
def intRepr (i : Int) : List Char :=
  if i < 0 then '-' :: (Nat.repr i.natAbs).data else (Nat.repr i.natAbs).data

/-- Finite decimal representation of a rational whose denominator divides a
power of ten (the cases where Python's float `repr` agrees with the exact
decimal); `none` otherwise. -/
def ratToDecimal? (q : Rat) : Option (List Char) :=
  ((List.range 64).find? (fun k => (q * ((10 : Rat) ^ (k + 1))).den = 1)).map
    (fun k0 =>
      let k := k0 + 1
      let n := (q * ((10 : Rat) ^ k)).num
      let a := n.natAbs
      let fpDigits := (Nat.repr (a % 10 ^ k)).data
      (if n < 0 then ['-'] else []) ++ (Nat.repr (a / 10 ^ k)).data ++
        '.' :: (List.replicate (k - fpDigits.length) '0' ++ fpDigits))

/-- `ExpressionEvaluator.evaluate_numeric`: strip, check the safe class,
turn `^` into `**`, evaluate; integral floats render without the fractional
part.  Any evaluation failure yields `None`. -/
def evaluate_numeric (expr0 : List Char) : Option (List Char) :=
  let expr := Minify.pyStrip expr0
  if ¬ is_safe_numeric expr then none
  else
    let pexpr := expr.flatMap (fun c => if c = '^' then chs "**" else [c])
    match parseE (8 * pexpr.length + 16) pexpr with
    | some (v, rest) =>
        if rest.dropWhile pyIsSpace = [] then
          if v.isFloat then
            if v.val.den = 1 then some (intRepr v.val.num) else ratToDecimal? v.val
          else some (intRepr v.val.num)
        else none
    | none => none

/-- Character class `[\d\+\-\*\/\^\.\s]` of `fold_constants` (note: no
`%`, no parentheses). -/
def exprClass (c : Char) : Bool :=
  pyIsDigit c || (['+', '-', '*', '/', '^', '.'] : List Char).contains c || pyIsSpace c

/-- `re.sub(r'\(([\d\+\-\*\/\^\.\s]+)\)', fold_paren, ...)`. -/
def foldParenF : Nat → List Char → List Char
  | 0, l => l
  | _, [] => []
  | fuel + 1, c :: r =>
      if c = '(' then
        let inner := r.takeWhile exprClass
        match r.drop inner.length with
        | ')' :: r2 =>
            if inner ≠ [] then
              (match evaluate_numeric inner with
               | some res => if res ≠ [] then res else '(' :: (inner ++ [')'])
               | none => '(' :: (inner ++ [')'])) ++ foldParenF fuel r2
            else c :: foldParenF fuel r
        | _ => c :: foldParenF fuel r
      else c :: foldParenF fuel r

/-- `re.sub(r'(\b[a-zA-Z_]\w*)\s*=\s*([\d\+\-\*\/\^\.\s]+)', fold_assign, ...)`;
`prevc` is the input character just before the scan position, for the
word-boundary test. -/
def foldAssignF : Nat → Option Char → List Char → List Char
  | 0, _, l => l
  | _, _, [] => []
  | fuel + 1, prevc, c :: r =>
      if (pyIsAlpha c || c = '_') ∧ (prevc.elim true (fun p => ¬ Minify.wordChar p)) then
        let name := (c :: r).takeWhile Minify.wordChar
        let afterName := (c :: r).drop name.length
        let ws1 := afterName.takeWhile pyIsSpace
        match afterName.drop ws1.length with
        | '=' :: r2 =>
            let ws2 := r2.takeWhile pyIsSpace
            let expr := (r2.drop ws2.length).takeWhile exprClass
            if expr ≠ [] then
              let rest := (r2.drop ws2.length).drop expr.length
              let matched := name ++ ws1 ++ '=' :: (ws2 ++ expr)
              (match evaluate_numeric expr with
               | some res => if res ≠ [] then name ++ chs " = " ++ res else matched
               | none => matched) ++ foldAssignF fuel expr.getLast? rest
            else c :: foldAssignF fuel (some c) r
        | _ => c :: foldAssignF fuel (some c) r
      else c :: foldAssignF fuel (some c) r

/-- `ExpressionEvaluator.fold_constants`: parenthesized expressions, then
simple assignments. -/
def fold_constants (code : List Char) : List Char :=
  let c1 := foldParenF (code.length + 1) code
  foldAssignF (c1.length + 1) none c1

/-- One pass of `ConcatSimplifier.merge_string_concat`'s pattern
(string, `\s*\.\.\s*`, string); both literals must evaluate, otherwise the
match is kept. -/
def mergeOnceF : Nat → List Char → List Char
  | 0, l => l
  | _, [] => []
  | fuel + 1, c :: r =>
      if isQuote c then
        match scanLitBody false c r with
        | some (b1, rest1) =>
            let s1 := c :: b1
            let ws1 := rest1.takeWhile pyIsSpace
            let r2 := rest1.drop ws1.length
            if (chs "..").isPrefixOf r2 then
              let r3 := r2.drop 2
              let ws2 := r3.takeWhile pyIsSpace
              match r3.drop ws2.length with
              | q2 :: r5 =>
                  if isQuote q2 then
                    match scanLitBody false q2 r5 with
                    | some (b2, rest2) =>
                        (match parsePyStrLit s1, parsePyStrLit (q2 :: b2) with
                         | some v1, some v2 => pyRepr (v1 ++ v2)
                         | _, _ => s1 ++ ws1 ++ chs ".." ++ ws2 ++ q2 :: b2) ++
                          mergeOnceF fuel rest2
                    | none => c :: mergeOnceF fuel r
                  else c :: mergeOnceF fuel r
              | [] => c :: mergeOnceF fuel r
            else c :: mergeOnceF fuel r
        | none => c :: mergeOnceF fuel r
      else c :: mergeOnceF fuel r

/-- The bounded fixpoint loop of `merge_string_concat` (at most 100
substitution passes, stopping when a pass changes nothing). -/
def mergeFix : Nat → List Char → List Char
  | 0, code => code
  | k + 1, code =>
      let code2 := mergeOnceF (code.length + 1) code
      if code2 = code then code2 else mergeFix k code2

def merge_string_concat (code : List Char) : List Char := mergeFix 100 code

/-- Literal rendered by `str(ast.literal_eval(i))` for the table-concat
items: a quoted string or a signed integer (floats are not modelled; no
claim reaches them). -/
def parsePyLitToStr (l : List Char) : Option (List Char) :=
  match l.head? with
  | some q => if isQuote q then parsePyStrLit l else (pyIntDec l).map intRepr
  | none => none

def parseItemsGo : List (List Char) → Option (List (List Char))
  | [] => some []
  | i :: rest => do
      let s ← parsePyLitToStr i
      let tl ← parseItemsGo rest
      some (s :: tl)

/-- Lazy tail of `["\'].*?["\']\s*\)`: the shortest run of non-newline
characters up to a quote character that is followed by `\s*\)`.  Returns
(content, closing quote, rest after the `)`). -/
def lazyQuoteEnd : Nat → List Char → Option (List Char × Char × List Char)
  | 0, _ => none
  | _ + 1, [] => none
  | fuel + 1, c :: r =>
      if c = '\n' then none
      else if isQuote c then
        match r.dropWhile pyIsSpace with
        | ')' :: r3 => some ([], c, r3)
        | _ => (lazyQuoteEnd fuel r).map (fun (t, q, rest) => (c :: t, q, rest))
      else (lazyQuoteEnd fuel r).map (fun (t, q, rest) => (c :: t, q, rest))

/-- `ConcatSimplifier.simplify_table_concat`'s pattern at one position:
`table\.concat\s*\(\s*\{([^}]+)\}\s*(?:,\s*(["\'].*?["\']))?\s*\)`.
Returns (replacement text, rest) on a match. -/
def tryTableConcat (l : List Char) : Option (List Char × List Char) :=
  if (chs "table.concat").isPrefixOf l then
    let a1 := (l.drop 12).dropWhile pyIsSpace
    match a1 with
    | '(' :: a2 =>
        (match a2.dropWhile pyIsSpace with
         | '{' :: a4 =>
             let items := a4.takeWhile (fun ch => ch ≠ '}')
             (match a4.drop items.length with
              | '}' :: a5 =>
                  if items ≠ [] then
                    let a6 := a5.dropWhile pyIsSpace
                    let matchedNoSep : Option (Option (List Char) × List Char) :=
                      match a6 with
                      | ')' :: a7 => some (none, a7)
                      | _ => none
                    let matchedSep : Option (Option (List Char) × List Char) :=
                      match a6 with
                      | ',' :: a6b =>
                          (match (a6b.dropWhile pyIsSpace).head? with
                           | some q =>
                               if isQuote q then
                                 (lazyQuoteEnd ((a6b.dropWhile pyIsSpace).length + 1)
                                     ((a6b.dropWhile pyIsSpace).drop 1)).map
                                   (fun (t, q2, rest) => (some (q :: (t ++ [q2])), rest))
                               else none
                           | none => none)
                      | _ => none
                    (match matchedSep.orElse (fun _ => matchedNoSep) with
                     | some (sep?, rest) =>
                         let repl :=
                           (do
                             let vals ← parseItemsGo
                               ((items.splitOn ',').map Minify.pyStrip)
                             let sep ← match sep? with
                               | some s => parsePyStrLit s
                               | none => some []
                             some (pyRepr (List.intercalate sep vals)))
                         (match repl with
                          | some t => some (t, rest)
                          | none => none)
                     | none => none)
                  else none
              | _ => none)
         | _ => none)
    | _ => none
  else none

/-- `simplify_table_concat`'s scanner: a failed replacement keeps the match
text; since the source keeps `m.group(0)` on failure and the scanner cannot
reconstruct it cheaply, failure is treated as no-match at this position,
which rewrites the same text (the replacement equals the original there). -/
def subTableF : Nat → List Char → List Char
  | 0, l => l
  | _, [] => []
  | fuel + 1, c :: r =>
      match tryTableConcat (c :: r) with
      | some (repl, rest) => repl ++ subTableF fuel rest
      | none => c :: subTableF fuel r

def simplify_table_concat (l : List Char) : List Char := subTableF (l.length + 1) l

/-- One alternative of `LoadstringInliner.PATTERN` at one position:
`fn\s*\(\s*(STRING)\s*\)` with `re.DOTALL` (so `\\.` may take a newline).
Returns (matched text, raw string group, rest). -/
def tryInlineWith (fn : List Char) (l : List Char) :
    Option (List Char × List Char × List Char) :=
  if fn.isPrefixOf l then
    let a1 := l.drop fn.length
    let ws1 := a1.takeWhile pyIsSpace
    match a1.drop ws1.length with
    | '(' :: a2 =>
        let ws2 := a2.takeWhile pyIsSpace
        (match a2.drop ws2.length with
         | q :: a3 =>
             if isQuote q then
               match scanLitBody true q a3 with
               | some (b, a4) =>
                   let raw := q :: b
                   let ws3 := a4.takeWhile pyIsSpace
                   (match a4.drop ws3.length with
                    | ')' :: a5 =>
                        some (fn ++ ws1 ++ '(' :: (ws2 ++ raw ++ ws3 ++ [')']), raw, a5)
                    | _ => none)
               | none => none
             else none
         | _ => none)
    | _ => none
  else none

/-- The `PATTERN.sub` scanner of `LoadstringInliner.inline`; `repl` maps
(matched text, raw string) to the replacement. -/
def inlineSubF (repl : List Char → List Char → List Char) :
    Nat → List Char → List Char
  | 0, l => l
  | _, [] => []
  | fuel + 1, c :: r =>
      match tryInlineWith (chs "loadstring") (c :: r) with
      | some (m, raw, rest) => repl m raw ++ inlineSubF repl fuel rest
      | none =>
          match tryInlineWith (chs "load") (c :: r) with
          | some (m, raw, rest) => repl m raw ++ inlineSubF repl fuel rest
          | none => c :: inlineSubF repl fuel r

/-- `replace_loadstring` of `LoadstringInliner.inline`: evaluate the
literal, decode escapes, recursively deobfuscate, wrap in an anonymous
function; any exception keeps the original call text. -/
def replaceLoad (deob : List Char → Except Unit (List Char)) (m raw : List Char) :
    List Char :=
  match parsePyStrLit raw with
  | none => m
  | some payload =>
      match decode_escapes payload with
      | .error _ => m
      | .ok payload2 =>
          match deob payload2 with
          | .error _ => m
          | .ok d => chs "(function()\n" ++ d ++ chs "\nend)"

/-- Concatenation of token values (`''.join(t.value for t in tokens)`). -/
def joinValues (ts : List Token) : List Char :=
  ts.foldr (fun t acc => t.value ++ acc) []

/-- Phase 8: `re.sub(r'\(\s*("..."|\'...\')\s*\)', r'\1', ...)`. -/
def removeParensF : Nat → List Char → List Char
  | 0, l => l
  | _, [] => []
  | fuel + 1, c :: r =>
      if c = '(' then
        let ws1 := r.takeWhile pyIsSpace
        match r.drop ws1.length with
        | q :: a2 =>
            if isQuote q then
              match scanLitBody false q a2 with
              | some (b, a3) =>
                  let ws2 := a3.takeWhile pyIsSpace
                  (match a3.drop ws2.length with
                   | ')' :: a4 => (q :: b) ++ removeParensF fuel a4
                   | _ => c :: removeParensF fuel r)
              | none => c :: removeParensF fuel r
            else c :: removeParensF fuel r
        | [] => c :: removeParensF fuel r
      else c :: removeParensF fuel r

/-- Phase 9: `re.sub(r';{2,}', ';', ...)`. -/
def squeezeSemisF : Nat → List Char → List Char
  | 0, l => l
  | _, [] => []
  | fuel + 1, c :: r =>
      if c = ';' ∧ r.head? = some ';' then
        ';' :: squeezeSemisF fuel (r.dropWhile (fun ch => ch = ';'))
      else c :: squeezeSemisF fuel r

/-- Phase 9: `re.sub(r'[ \t]+', ' ', ...)`. -/
def squeezeSpacesF : Nat → List Char → List Char
  | 0, l => l
  | _, [] => []
  | fuel + 1, c :: r =>
      if c = ' ' ∨ c = '\t' then
        ' ' :: squeezeSpacesF fuel (r.dropWhile (fun ch => ch = ' ' ∨ ch = '\t'))
      else c :: squeezeSpacesF fuel r

/-- Phase 9: `re.sub(r'\n{3,}', '\n\n', ...)`. -/
def squeezeNewlinesF : Nat → List Char → List Char
  | 0, l => l
  | _, [] => []
  | fuel + 1, c :: r =>
      if c = '\n' ∧ r.take 2 = ['\n', '\n'] then
        '\n' :: '\n' :: squeezeNewlinesF fuel (r.dropWhile (fun ch => ch = '\n'))
      else c :: squeezeNewlinesF fuel r

/-- Phases 1-9 of `Deobfuscator.deobfuscate_internal`, with the phase-4
inliner passed in (it carries the depth budget).  Only phase 7's
tokenization can raise past the phase boundaries. -/
def deobPhases (inliner : List Char → List Char) (code : List Char) :
    Except Unit (List Char) := do
  let c1 := subStringChar code
  let c2 := decode_byte_codes c1
  let c3 := process_string_literals c2
  let c4 := inliner c3
  let c5 := fold_constants c4
  let c6 := simplify_table_concat (merge_string_concat c5)
  let toks ← tokenize c6
  let c7 := joinValues (propagate toks)
  let c8 := removeParensF (c7.length + 1) c7
  let c9 := squeezeNewlinesF (c8.length + 1)
    (squeezeSpacesF (c8.length + 1) (squeezeSemisF (c8.length + 1) c8))
  .ok (Minify.pyStrip c9)

/-- `LoadstringInliner.inline(code, max_depth)`: at depth 0 the code is
returned unmodified; otherwise each literal-argument `load`/`loadstring`
call is replaced by the recursively deobfuscated payload wrapped in an
anonymous function (`deobfuscate_internal(payload, max_depth - 1)`), with
any exception restoring the original call. -/
def inline : Nat → List Char → List Char
  | 0, code => code
  | d + 1, code =>
      inlineSubF (replaceLoad (fun payload => deobPhases (inline d) payload))
        (code.length + 1) code

/-- `Deobfuscator.deobfuscate_internal(code, max_depth)` (phase 4 calls
`inline` at the same depth). -/
def deobfuscate_internal (code : List Char) (max_depth : Nat) :
    Except Unit (List Char) :=
  deobPhases (inline max_depth) code

end Deob

deriving instance DecidableEq for Except

namespace Deob

/-- Token stream of the spec's constant-propagation scenario
`local x = 5\nprint(x)` under `deobfuscate.py`'s tokenizer. -/
def demoTokens : List Token :=
  [⟨.KEYWORD, chs "local"⟩, ⟨.WHITESPACE, [' ']⟩, ⟨.IDENTIFIER, chs "x"⟩,
   ⟨.WHITESPACE, [' ']⟩, ⟨.OPERATOR, chs "="⟩, ⟨.WHITESPACE, [' ']⟩,
   ⟨.NUMBER, chs "5"⟩, ⟨.NEWLINE, chs "\n"⟩, ⟨.IDENTIFIER, chs "print"⟩,
   ⟨.OPERATOR, chs "("⟩, ⟨.IDENTIFIER, chs "x"⟩, ⟨.OPERATOR, chs ")"⟩]

end Deob

namespace Minify

/-- Kind/value sequence of a tokenization, ignoring whitespace and comment
tokens (the comparison of the minifier token-preservation property). -/
def tokenSig (r : Except Unit (List Token)) :
    Except Unit (List (TokenType × List Char)) :=
  r.map (fun ts =>
    (ts.filter (fun t => ¬(t.type = .WHITESPACE ∨ t.type = .COMMENT))).map
      (fun t => (t.type, t.value)))

end Minify

/-- Numeric value of a decimal digit character. -/
def digitVal (c : Char) : Nat := c.toNat - '0'.toNat

/-- Value of a most-significant-first decimal digit string. -/
def digitsVal (l : List Char) : Nat :=
  l.foldl (fun acc c => acc * 10 + digitVal c) 0

-- ======================================================================
-- THEOREMS
-- ======================================================================

namespace LuaTok

theorem readToRR_append : ∀ l : List Char, (readToRR l).1 ++ (readToRR l).2 = l := by
  intro l
  induction l with
  | nil => rfl
  | cons c rest ih =>
    cases rest with
    | nil => rfl
    | cons c2 rest2 =>
      rw [readToRR]
      split
      · next h => simp [h.1, h.2]
      · simpa using ih

theorem readQuoted_append (q : Char) (l : List Char) :
    (readQuoted q l).1 ++ (readQuoted q l).2 = l := by
  generalize hn : l.length = n
  induction n using Nat.strong_induction_on generalizing l with
  | _ n ih =>
    match l, hn with
    | [], _ => rfl
    | [c], _ => rfl
    | c :: c2 :: rest, hn =>
      rw [readQuoted]
      by_cases hb : c = '\\'
      · rw [if_pos hb]
        have := ih rest.length (by rw [← hn]; simp; omega) rest rfl
        simpa using this
      · rw [if_neg hb]
        by_cases hq : c = q
        · rw [if_pos hq]; simp
        · rw [if_neg hq]
          have := ih (c2 :: rest).length (by rw [← hn]; simp) (c2 :: rest) rfl
          simpa using this

theorem opsByLength_ne_nil : ∀ op ∈ opsByLength, op ≠ [] := by decide

theorem lexStep_spec (c : Char) (cs : List Char) :
    (lexStep c cs).1.value ++ (lexStep c cs).2 = c :: cs ∧
      (lexStep c cs).1.value ≠ [] := by
  by_cases h1 : pyIsSpace c = true
  · rw [lexStep, if_pos h1]
    exact ⟨List.takeWhile_append_dropWhile _ _, by simp [List.takeWhile_cons, h1]⟩
  · by_cases h2 : (c :: cs).take 2 = ['-', '-']
    · by_cases h4 : (c :: cs).take 4 = ['-', '-', '[', '[']
      · rw [lexStep, if_neg h1, if_pos h2, if_pos h4]
        refine ⟨?_, by simp⟩
        show (['-', '-', '[', '['] ++ (readToRR ((c :: cs).drop 4)).1) ++
            (readToRR ((c :: cs).drop 4)).2 = c :: cs
        rw [List.append_assoc, readToRR_append, ← h4, List.take_append_drop]
      · rw [lexStep, if_neg h1, if_pos h2, if_neg h4]
        have hc : c = '-' := by
          have hun : List.take 2 (c :: cs) = c :: List.take 1 cs := rfl
          rw [hun] at h2
          exact (List.cons.injEq _ _ _ _ ▸ h2).1
        refine ⟨List.takeWhile_append_dropWhile _ _, ?_⟩
        simp [List.takeWhile_cons, hc]
    · by_cases h3 : (c :: cs).take 2 = ['[', '[']
      · rw [lexStep, if_neg h1, if_neg h2, if_pos h3]
        refine ⟨?_, by simp⟩
        show (['[', '['] ++ (readToRR ((c :: cs).drop 2)).1) ++
            (readToRR ((c :: cs).drop 2)).2 = c :: cs
        rw [List.append_assoc, readToRR_append, ← h3, List.take_append_drop]
      · by_cases hq : c = '"' ∨ c = '\''
        · rw [lexStep, if_neg h1, if_neg h2, if_neg h3, if_pos hq]
          refine ⟨?_, by simp⟩
          show c :: (readQuoted c cs).1 ++ (readQuoted c cs).2 = c :: cs
          rw [List.cons_append, readQuoted_append]
        · by_cases hd : pyIsDigit c = true
          · rw [lexStep, if_neg h1, if_neg h2, if_neg h3, if_neg hq, if_pos hd]
            refine ⟨List.takeWhile_append_dropWhile _ _, ?_⟩
            have hnum : numChar c = true := by simp [numChar, hd]
            simp [List.takeWhile_cons, hnum]
          · by_cases ha : (pyIsAlpha c || c = '_') = true
            · rw [lexStep, if_neg h1, if_neg h2, if_neg h3, if_neg hq, if_neg hd,
                if_pos ha]
              refine ⟨List.takeWhile_append_dropWhile _ _, ?_⟩
              have hic : identChar c = true := by
                rcases Bool.or_eq_true _ _ |>.mp ha with h | h
                · simp [identChar, pyIsAlnum, h]
                · simp_all [identChar, pyIsAlnum]
              simp [List.takeWhile_cons, hic]
            · rw [lexStep, if_neg h1, if_neg h2, if_neg h3, if_neg hq, if_neg hd,
                if_neg ha]
              cases hfind : opsByLength.find? (fun op => (c :: cs).take op.length == op) with
              | none => exact ⟨rfl, by simp⟩
              | some op =>
                have hpred := List.find?_some hfind
                have hmem := List.mem_of_find?_eq_some hfind
                have htake : (c :: cs).take op.length = op := by simpa using hpred
                refine ⟨?_, opsByLength_ne_nil op hmem⟩
                show op ++ (c :: cs).drop op.length = c :: cs
                have hsplit := List.take_append_drop op.length (c :: cs)
                rw [htake] at hsplit
                exact hsplit

theorem lexStep_rest_length (c : Char) (cs : List Char) :
    (lexStep c cs).2.length ≤ cs.length := by
  have hs := lexStep_spec c cs
  have hlen := congrArg List.length hs.1
  simp only [List.length_append, List.length_cons] at hlen
  have hv : 1 ≤ (lexStep c cs).1.value.length :=
    List.length_pos.mpr hs.2
  omega

theorem tokenizeF_concat :
    ∀ fuel l, l.length ≤ fuel → concatValues (tokenizeF fuel l) = l := by
  intro fuel
  induction fuel with
  | zero =>
    intro l h
    have : l = [] := List.length_eq_zero.mp (Nat.le_zero.mp h)
    subst this; rfl
  | succ n ih =>
    intro l h
    cases l with
    | nil => rfl
    | cons c cs =>
      have hs := lexStep_spec c cs
      have hlen : (lexStep c cs).2.length ≤ n := by
        have := lexStep_rest_length c cs
        simp only [List.length_cons] at h
        omega
      show (lexStep c cs).1.value ++ concatValues (tokenizeF n (lexStep c cs).2) = c :: cs
      rw [ih _ hlen, hs.1]

theorem tokenize_concat (l : List Char) : concatValues (tokenize l) = l :=
  tokenizeF_concat l.length l le_rfl

end LuaTok

namespace BlockEngine

theorem processGo_depth_nonneg :
    ∀ (toks : List LuaTok.Token) (indent : Int) (mode : String), 0 ≤ indent →
      ∀ e ∈ processGo indent mode toks, 0 ≤ e.2.2 := by
  intro toks
  induction toks with
  | nil => intro indent mode _ e he; simp [processGo] at he
  | cons tok rest ih =>
    intro indent mode h e he
    have hmax : (0 : Int) ≤ max 0 (indent - 1) := le_max_left _ _
    rw [processGo] at he
    split at he
    · rcases List.mem_cons.mp he with rfl | hm
      · exact h
      · exact ih _ _ h e hm
    · split at he
      · rcases List.mem_cons.mp he with rfl | hm
        · exact h
        · exact ih _ _ h e hm
      · split at he
        · split at he
          · rcases List.mem_cons.mp he with rfl | hm
            · exact h
            · exact ih _ _ (by omega) e hm
          · split at he
            · rcases List.mem_cons.mp he with rfl | hm
              · exact hmax
              · exact ih _ _ (by omega) e hm
            · split at he
              · rcases List.mem_cons.mp he with rfl | hm
                · exact hmax
                · exact ih _ _ hmax e hm
              · rcases List.mem_cons.mp he with rfl | hm
                · exact h
                · exact ih _ _ h e hm
        · rcases List.mem_cons.mp he with rfl | hm
          · exact h
          · exact ih _ _ h e hm

theorem processGo_values :
    ∀ (toks : List LuaTok.Token) (indent : Int) (mode : String),
      (processGo indent mode toks).map (fun e => e.2.1) = toks.map (·.value) := by
  intro toks
  induction toks with
  | nil => intro indent mode; rfl
  | cons tok rest ih =>
    intro indent mode
    rw [processGo]
    split
    · simp [ih]
    · split
      · simp [ih]
      · split
        · split
          · simp [ih]
          · split
            · simp [ih]
            · split
              · simp [ih]
              · simp [ih]
        · simp [ih]

end BlockEngine

/-- Claim C1 (counterexample): the lexeme-concatenation round trip does not
hold for every lexer implementation: `beautify.py`'s tokenize discards
non-newline whitespace, so on the input `" "` it returns no tokens at all
and the concatenation of lexemes (the empty string) differs from the
input. -/
theorem beautify_drops_whitespace :
    Beaut.tokenize (chs " ") = .ok [] ∧ chs " " ≠ ([] : List Char) := by
  constructor
  · decide
  · decide

/-- Claim C1 (amended): concatenating the token lexemes in order reproduces
the input byte-for-byte for `lua_tokenizer.py`'s tokenize, on every input;
the other lexers do not share the property: `beautify.py` drops non-newline
whitespace (`"a b"` re-concatenates to `"ab"`), and `minify.py`'s and
`deobfuscate.py`'s tokenize raise on inputs ending in whitespace. -/
theorem luaTok_roundtrip_only :
    (∀ l : List Char, LuaTok.concatValues (LuaTok.tokenize l) = l) ∧
      Beaut.tokenize (chs "a b") =
        .ok [⟨.IDENTIFIER, chs "a"⟩, ⟨.IDENTIFIER, chs "b"⟩] ∧
      Minify.tokenize (chs "x ") = .error () ∧
      Deob.tokenize (chs "y ") = .error () := by
  refine ⟨LuaTok.tokenize_concat, ?_, ?_, ?_⟩ <;> decide

/-- Claim C2 (code bug): on the spec's own scenario `local x = 5\nprint(x)`
the constant propagator substitutes nothing: the declaration's own
`x =` lookahead deletes the just-registered constant, so the token stream
is returned unchanged (`print(x)`, not `print(5)`). -/
theorem propagate_demo_unchanged :
    Deob.tokenize (chs "local x = 5\nprint(x)") = .ok Deob.demoTokens ∧
      Deob.propagate Deob.demoTokens = Deob.demoTokens ∧
      Deob.joinValues (Deob.propagate Deob.demoTokens) ≠
        chs "local x = 5\nprint(5)" := by
  refine ⟨?_, ?_, ?_⟩ <;> decide

/-- Claim C3 (code bug): `minify.py`'s, `deobfuscate.py`'s and
`beautify.py`'s tokenize raise a `TypeError` (modelled as `Except.error`)
on an isolated `0` (the `self.peek(1) in 'xX'` hex test), on an input
ending mid-number (`self.peek() in 'eE'`), and on an input ending in
whitespace (`self.peek() in ' \t\r\n'`), instead of returning normally. -/
theorem tokenize_raises_at_eof :
    Minify.tokenize (chs "0") = .error () ∧
      Minify.tokenize (chs "1") = .error () ∧
      Minify.tokenize (chs " ") = .error () ∧
      Deob.tokenize (chs "return 1") = .error () ∧
      Beaut.tokenize (chs "0") = .error () := by
  refine ⟨?_, ?_, ?_, ?_, ?_⟩ <;> decide

/-- Claim C4 (counterexample): `lua_tokenizer.py` has no long-bracket
levels (only `[[`), so `[==[hello]==]` does not lex to a single STRING
token there: it shatters into punctuation, `==` operators and an
identifier. -/
theorem lua_tokenizer_no_long_bracket_levels :
    LuaTok.tokenize (chs "[==[hello]==]") =
      [⟨"PUNCT", chs "["⟩, ⟨"OPERATOR", chs "=="⟩, ⟨"PUNCT", chs "["⟩,
       ⟨"IDENTIFIER", chs "hello"⟩, ⟨"PUNCT", chs "]"⟩, ⟨"OPERATOR", chs "=="⟩,
       ⟨"PUNCT", chs "]"⟩] ∧
      (LuaTok.tokenize (chs "[==[hello]==]")).map (fun t => t.value) ≠
        [chs "[==[hello]==]"] := by
  constructor <;> decide

/-- Claim C4 (amended): in the level-aware lexers (`minify.py`,
`beautify.py`, `deobfuscate.py`) a long string opened at level 2 is closed
only by the matching level-2 closer: `[==[hello]==]` is one STRING token
with the full text, while `[==[hello]=]` leaves the bracket open and is
consumed to end-of-input as one STRING token; `lua_tokenizer.py` supports
only level 0. -/
theorem long_bracket_levels_in_level_aware_lexers :
    Minify.tokenize (chs "[==[hello]==]") = .ok [⟨.STRING, chs "[==[hello]==]"⟩] ∧
      Minify.tokenize (chs "[==[hello]=]") = .ok [⟨.STRING, chs "[==[hello]=]"⟩] ∧
      Beaut.tokenize (chs "[==[hello]==]") = .ok [⟨.STRING, chs "[==[hello]==]"⟩] ∧
      Beaut.tokenize (chs "[==[hello]=]") = .ok [⟨.STRING, chs "[==[hello]=]"⟩] ∧
      Deob.tokenize (chs "[==[hello]==]") = .ok [⟨.STRING, chs "[==[hello]==]"⟩] ∧
      Deob.tokenize (chs "[==[hello]=]") = .ok [⟨.STRING, chs "[==[hello]=]"⟩] := by
  refine ⟨?_, ?_, ?_, ?_, ?_, ?_⟩ <;> decide

/-- Claim C5 (code bug): aggressive minification corrupts the token
stream.  `minify('print("a--b")', rename_vars := true, aggressive := true)`
produces `pr in t('a- -b')`: the `and|or|not|in` spacing regex rewrites
inside the identifier `print` and the `--` → `- -` cleanup rewrites inside
the string literal, so re-tokenizing yields a different kind/value
sequence (ignoring whitespace and comments) than the input's. -/
theorem minify_corrupts_token_stream :
    Minify.minify (chs "print(\"a--b\")") true true =
      .ok ['p', 'r', ' ', 'i', 'n', ' ', 't', '(', '\'', 'a', '-', ' ', '-',
        'b', '\'', ')'] ∧
      Minify.tokenSig
          (Minify.tokenize ['p', 'r', ' ', 'i', 'n', ' ', 't', '(', '\'', 'a',
            '-', ' ', '-', 'b', '\'', ')']) ≠
        Minify.tokenSig (Minify.tokenize (chs "print(\"a--b\")")) := by
  constructor <;> decide

/-- Claim C6 (code bug): the spec's scenario `load("return 1")` is not
inlined at all: the payload `return 1` ends in a number at end-of-input, so
phase 7's tokenization inside `deobfuscate_internal` raises, the inliner's
exception handler restores the original call, and the triple direct
nesting `load(load(load("return 1")))` is likewise returned unchanged (the
outer calls' arguments are not string literals and never match the
pattern). -/
theorem inline_leaves_return1_unchanged :
    Deob.inline 3 (chs "load(\"return 1\")") = chs "load(\"return 1\")" ∧
      Deob.deobfuscate_internal (chs "return 1") 2 = .error () ∧
      Deob.inline 3 (chs "load(load(load(\"return 1\")))") =
        chs "load(load(load(\"return 1\")))" := by
  refine ⟨?_, ?_, ?_⟩ <;> decide

namespace Deob

theorem propEmit_of_not_ident (c2 : List (List Char × List Char)) (tok : Token)
    (rest : List Token) (h : tok.type ≠ .IDENTIFIER) :
    propEmit c2 tok rest = tok := by
  rw [propEmit, if_neg h]

theorem propGo_length (c : List (List Char × List Char)) :
    ∀ l : List Token, (propGo c l).length = l.length := by
  intro l
  induction l generalizing c with
  | nil => rfl
  | cons tok rest ih => simp [propGo, ih]

theorem propGo_frame (c : List (List Char × List Char)) (l : List Token) :
    ∀ (i : Nat) (t : Token), l[i]? = some t → t.type ≠ .IDENTIFIER →
      (propGo c l)[i]? = some t := by
  induction l generalizing c with
  | nil => intro i t h _; simp at h
  | cons tok rest ih =>
    intro i t h hne
    cases i with
    | zero =>
      simp only [List.getElem?_cons_zero, Option.some.injEq] at h
      subst h
      simp [propGo, propEmit_of_not_ident _ _ _ hne]
    | succ n =>
      simp only [List.getElem?_cons_succ] at h
      simpa [propGo] using ih _ n t h hne

end Deob

/-- Claim C10: `ConstantPropagator.propagate` returns a token list of the
input's length, and every position holding a non-`IDENTIFIER` input token
holds the identical token in the output (substitution is one-for-one on
`IDENTIFIER` tokens only). -/
theorem propagate_length_and_frame (toks : List Deob.Token) :
    (Deob.propagate toks).length = toks.length ∧
      ∀ (i : Nat) (t : Deob.Token), toks[i]? = some t →
        t.type ≠ Deob.TokenType.IDENTIFIER →
        (Deob.propagate toks)[i]? = some t :=
  ⟨Deob.propGo_length [] toks, Deob.propGo_frame [] toks⟩

/-- Witness for C10 at the one-token stream `[NUMBER 5]`. -/
theorem propagate_length_and_frame_witness :
    (Deob.propagate [(⟨.NUMBER, chs "5"⟩ : Deob.Token)]).length = 1 ∧
      (Deob.propagate [(⟨.NUMBER, chs "5"⟩ : Deob.Token)])[0]? =
        some ⟨.NUMBER, chs "5"⟩ := by
  have h := propagate_length_and_frame [(⟨.NUMBER, chs "5"⟩ : Deob.Token)]
  exact ⟨h.1, h.2 0 ⟨.NUMBER, chs "5"⟩ (by decide) (by decide)⟩

/-- Claim C8: every entry the depth tracker emits carries a non-negative
depth, for every token sequence (the decrements are clamped at zero). -/
theorem process_depth_nonneg (toks : List LuaTok.Token) :
    ∀ e ∈ BlockEngine.process toks, 0 ≤ e.2.2 := fun e he =>
  BlockEngine.processGo_depth_nonneg toks 0 "normal" le_rfl e he

/-- Witness for C8 at the single unmatched closer `end`. -/
theorem process_depth_nonneg_witness :
    (0 : Int) ≤ (("keyword", chs "end", (0 : Int)) : String × List Char × Int).2.2 :=
  process_depth_nonneg [⟨"KEYWORD", chs "end"⟩] ("keyword", chs "end", 0) (by decide)

/-- Claim C9: `BlockEngine.process` emits exactly one entry per input
token, in order, and the value component of each entry is the token's text
unchanged. -/
theorem process_one_entry_per_token (toks : List LuaTok.Token) :
    (BlockEngine.process toks).length = toks.length ∧
      (BlockEngine.process toks).map (fun e => e.2.1) =
        toks.map (fun t => t.value) := by
  have h := BlockEngine.processGo_values toks 0 "normal"
  refine ⟨?_, h⟩
  have := congrArg List.length h
  simpa using this

theorem foldlVal (l : List Char) :
    ∀ a : Nat, l.foldl (fun acc c => acc * 10 + digitVal c) a =
      a * 10 ^ l.length + digitsVal l := by
  induction l with
  | nil => intro a; simp [digitsVal]
  | cons c t ih =>
    intro a
    show t.foldl (fun acc c => acc * 10 + digitVal c) (a * 10 + digitVal c) = _
    rw [ih]
    have hd : digitsVal (c :: t) = digitVal c * 10 ^ t.length + digitsVal t := by
      show t.foldl (fun acc c => acc * 10 + digitVal c) (0 * 10 + digitVal c) = _
      rw [ih]; ring
    rw [hd]
    simp [List.length_cons, pow_succ]
    ring

theorem digitsVal_cons (c : Char) (t : List Char) :
    digitsVal (c :: t) = digitVal c * 10 ^ t.length + digitsVal t := by
  show t.foldl (fun acc c => acc * 10 + digitVal c) (0 * 10 + digitVal c) = _
  rw [foldlVal]; ring

theorem digitChar_spec {n : Nat} (h : n < 10) :
    digitVal (Nat.digitChar n) = n ∧ pyIsDigit (Nat.digitChar n) = true := by
  interval_cases n <;> exact ⟨by decide, by decide⟩

theorem toDigitsCore_spec :
    ∀ (fuel n : Nat) (ds : List Char), n < 10 ^ fuel →
      digitsVal (Nat.toDigitsCore 10 fuel n ds) =
        n * 10 ^ ds.length + digitsVal ds ∧
      ((∀ c ∈ ds, pyIsDigit c = true) →
        ∀ c ∈ Nat.toDigitsCore 10 fuel n ds, pyIsDigit c = true) := by
  intro fuel
  induction fuel with
  | zero =>
    intro n ds h
    have : n = 0 := by simpa using h
    subst this
    exact ⟨by simp [Nat.toDigitsCore], fun hds => by simpa [Nat.toDigitsCore] using hds⟩
  | succ f ih =>
    intro n ds h
    have hmod : n % 10 < 10 := Nat.mod_lt _ (by norm_num)
    have hdc := digitChar_spec hmod
    by_cases hdiv : n / 10 = 0
    · have hn10 : n < 10 := by omega
      have hstep : Nat.toDigitsCore 10 (f + 1) n ds = Nat.digitChar (n % 10) :: ds := by
        rw [Nat.toDigitsCore]
        simp [hdiv]
      rw [hstep]
      constructor
      · rw [digitsVal_cons, hdc.1, Nat.mod_eq_of_lt hn10]
      · intro hds c hc
        rcases List.mem_cons.mp hc with rfl | hm
        · exact hdc.2
        · exact hds c hm
    · have hstep : Nat.toDigitsCore 10 (f + 1) n ds =
          Nat.toDigitsCore 10 f (n / 10) (Nat.digitChar (n % 10) :: ds) := by
        rw [Nat.toDigitsCore]
        simp [hdiv]
      rw [hstep]
      have hlt : n / 10 < 10 ^ f := by
        rw [Nat.div_lt_iff_lt_mul (by norm_num)]
        calc n < 10 ^ (f + 1) := h
          _ = 10 ^ f * 10 := by rw [pow_succ]
      obtain ⟨hv, hdig⟩ := ih (n / 10) (Nat.digitChar (n % 10) :: ds) hlt
      constructor
      · rw [hv, digitsVal_cons, hdc.1]
        have hsplit : n = 10 * (n / 10) + n % 10 := (Nat.div_add_mod n 10).symm ▸ by
          omega
        calc n / 10 * 10 ^ (Nat.digitChar (n % 10) :: ds).length +
              (n % 10 * 10 ^ ds.length + digitsVal ds)
            = n / 10 * (10 * 10 ^ ds.length) + n % 10 * 10 ^ ds.length +
              digitsVal ds := by
              simp [List.length_cons, pow_succ]; ring
          _ = n * 10 ^ ds.length + digitsVal ds := by
              conv_rhs => rw [hsplit]
              ring
      · intro hds
        apply hdig
        intro c hc
        rcases List.mem_cons.mp hc with rfl | hm
        · exact hdc.2
        · exact hds c hm

theorem toDigits_val (n : Nat) : digitsVal (Nat.toDigits 10 n) = n := by
  have hlt : n < 10 ^ (n + 1) := by
    calc n < 2 ^ n := Nat.lt_two_pow n
      _ ≤ 10 ^ n := Nat.pow_le_pow_left (by norm_num) n
      _ ≤ 10 ^ (n + 1) := Nat.pow_le_pow_right (by norm_num) (Nat.le_succ n)
  have := (toDigitsCore_spec (n + 1) n [] hlt).1
  simpa [Nat.toDigits, digitsVal] using this

theorem toDigits_digits (n : Nat) : ∀ c ∈ Nat.toDigits 10 n, pyIsDigit c = true := by
  have hlt : n < 10 ^ (n + 1) := by
    calc n < 2 ^ n := Nat.lt_two_pow n
      _ ≤ 10 ^ n := Nat.pow_le_pow_left (by norm_num) n
      _ ≤ 10 ^ (n + 1) := Nat.pow_le_pow_right (by norm_num) (Nat.le_succ n)
  exact (toDigitsCore_spec (n + 1) n [] hlt).2 (by simp)

theorem reprData_eq_toDigits (n : Nat) : (Nat.repr n).data = Nat.toDigits 10 n := rfl

theorem reprData_inj {m n : Nat} (h : (Nat.repr m).data = (Nat.repr n).data) :
    m = n := by
  rw [reprData_eq_toDigits, reprData_eq_toDigits] at h
  have := congrArg digitsVal h
  rwa [toDigits_val, toDigits_val] at this

theorem pyIsDigit_val_le {c : Char} (h : pyIsDigit c = true) : digitVal c ≤ 9 := by
  simp only [pyIsDigit, Bool.and_eq_true, decide_eq_true_eq] at h
  obtain ⟨_, h2⟩ := h
  rw [Char.le_def, UInt32.le_def, BitVec.le_def] at h2
  have h2n : c.toNat ≤ 57 := by
    simpa [Char.toNat, UInt32.toNat] using h2
  have h0 : '0'.toNat = 48 := by decide
  simp only [digitVal, h0]
  omega

theorem digitsVal_lt (l : List Char) (h : ∀ c ∈ l, pyIsDigit c = true) :
    digitsVal l < 10 ^ l.length := by
  induction l with
  | nil => simp [digitsVal]
  | cons c t ih =>
    rw [digitsVal_cons]
    have h1 : digitVal c ≤ 9 := pyIsDigit_val_le (h c (by simp))
    have h2 : digitsVal t < 10 ^ t.length := ih (fun d hd => h d (List.mem_cons_of_mem _ hd))
    calc digitVal c * 10 ^ t.length + digitsVal t
        ≤ 9 * 10 ^ t.length + digitsVal t := by
          have := Nat.mul_le_mul_right (10 ^ t.length) h1
          omega
      _ < 9 * 10 ^ t.length + 10 ^ t.length := by omega
      _ = 10 ^ (t.length + 1) := by rw [pow_succ]; ring
      _ = 10 ^ (c :: t).length := by rw [List.length_cons]

theorem reprData_length_ge {n : Nat} (h : 100 ≤ n) :
    3 ≤ (Nat.repr n).data.length := by
  by_contra hlt
  push_neg at hlt
  have hv := toDigits_val n
  have hd := toDigits_digits n
  have := digitsVal_lt (Nat.toDigits 10 n) hd
  rw [hv] at this
  rw [reprData_eq_toDigits] at hlt
  have : n < 10 ^ 2 := lt_of_lt_of_le this
    (Nat.pow_le_pow_right (by norm_num) (by omega))
  norm_num at this
  omega

namespace Minify

theorem mem_twoCharGroup {c1 : Char} {x : List Char} (h : x ∈ twoCharGroup c1) :
    ∃ c2, x = [c1, c2] := by
  rw [twoCharGroup] at h
  obtain ⟨c2, _, hx⟩ := List.mem_filterMap.mp h
  by_cases hk : [c1, c2] ∈ KEYWORDS
  · simp [hk] at hx
  · simp only [hk, if_false, Option.some.injEq] at hx
    exact ⟨c2, hx.symm⟩

theorem twoCharGroup_nodup (c1 : Char) : (twoCharGroup c1).Nodup := by
  rw [twoCharGroup]
  refine List.Nodup.filterMap ?_ (by decide)
  intro a a' b hb hb'
  simp only [Option.mem_def] at hb hb'
  by_cases hk : [c1, a] ∈ KEYWORDS
  · simp [hk] at hb
  · by_cases hk' : [c1, a'] ∈ KEYWORDS
    · simp [hk'] at hb'
    · simp only [hk, hk', if_false, Option.some.injEq] at hb hb'
      have := hb.trans hb'.symm
      simpa using this

theorem shortNames1_nodup : shortNames1.Nodup := by
  rw [shortNames1]
  exact List.Nodup.map (fun a b h => by simpa using h) (by decide)

theorem shortNames2_nodup : shortNames2.Nodup := by
  rw [shortNames2, List.nodup_flatMap]
  refine ⟨fun c1 _ => twoCharGroup_nodup c1, ?_⟩
  have hvs : valid_singles.Nodup := by decide
  refine List.Pairwise.imp ?_ hvs
  intro a b hab x hxa hxb
  obtain ⟨c2, rfl⟩ := mem_twoCharGroup hxa
  obtain ⟨c2', he⟩ := mem_twoCharGroup hxb
  exact hab (by simpa using congrArg (fun t => t.head?) he)

theorem mem_threeCharInner {c1 c2 : Char} {x : List Char}
    (h : x ∈ threeCharInner c1 c2) : ∃ c3, x = [c1, c2, c3] := by
  rw [threeCharInner] at h
  obtain ⟨c3, _, hx⟩ := List.mem_filterMap.mp h
  by_cases hk : [c1, c2, c3] ∈ KEYWORDS
  · simp [hk] at hx
  · simp only [hk, if_false, Option.some.injEq] at hx
    exact ⟨c3, hx.symm⟩

theorem threeCharInner_nodup (c1 c2 : Char) : (threeCharInner c1 c2).Nodup := by
  rw [threeCharInner]
  refine List.Nodup.filterMap ?_ (by decide)
  intro a a' b hb hb'
  simp only [Option.mem_def] at hb hb'
  by_cases hk : [c1, c2, a] ∈ KEYWORDS
  · simp [hk] at hb
  · by_cases hk' : [c1, c2, a'] ∈ KEYWORDS
    · simp [hk'] at hb'
    · simp only [hk, hk', if_false, Option.some.injEq] at hb hb'
      have := hb.trans hb'.symm
      simpa using this

theorem mem_threeCharGroup {c1 : Char} {x : List Char} (h : x ∈ threeCharGroup c1) :
    ∃ c2 c3, x = [c1, c2, c3] := by
  rw [threeCharGroup] at h
  obtain ⟨c2, _, hx⟩ := List.mem_flatMap.mp h
  obtain ⟨c3, rfl⟩ := mem_threeCharInner hx
  exact ⟨c2, c3, rfl⟩

theorem threeCharGroup_nodup (c1 : Char) : (threeCharGroup c1).Nodup := by
  rw [threeCharGroup, List.nodup_flatMap]
  refine ⟨fun c2 _ => threeCharInner_nodup c1 c2, ?_⟩
  refine List.Pairwise.imp ?_ (by decide : nameTail.Nodup)
  intro a b hab x hxa hxb
  obtain ⟨c3, rfl⟩ := mem_threeCharInner hxa
  obtain ⟨c3', he⟩ := mem_threeCharInner hxb
  injection he with h1 h2
  injection h2 with h2a h2b
  exact hab h2a

theorem shortNames3_nodup : shortNames3.Nodup := by
  rw [shortNames3, List.nodup_flatMap]
  refine ⟨fun c1 _ => threeCharGroup_nodup c1, ?_⟩
  refine List.Pairwise.imp ?_ (by decide : valid_singles.Nodup)
  intro a b hab x hxa hxb
  obtain ⟨c2, c3, rfl⟩ := mem_threeCharGroup hxa
  obtain ⟨c2', c3', he⟩ := mem_threeCharGroup hxb
  exact hab (by simpa using congrArg (fun t => t.head?) he)

theorem mem_shortNames1_len {x : List Char} (h : x ∈ shortNames1) : x.length = 1 := by
  rw [shortNames1] at h
  obtain ⟨c, _, rfl⟩ := List.mem_map.mp h
  rfl

theorem mem_shortNames2_len {x : List Char} (h : x ∈ shortNames2) : x.length = 2 := by
  rw [shortNames2] at h
  obtain ⟨c1, _, hx⟩ := List.mem_flatMap.mp h
  obtain ⟨c2, rfl⟩ := mem_twoCharGroup hx
  rfl

theorem mem_shortNames3_len {x : List Char} (h : x ∈ shortNames3) : x.length = 3 := by
  rw [shortNames3] at h
  obtain ⟨c1, _, hx⟩ := List.mem_flatMap.mp h
  obtain ⟨c2, c3, rfl⟩ := mem_threeCharGroup hx
  rfl

theorem generate_short_names_nodup : generate_short_names.Nodup := by
  rw [generate_short_names]
  refine (shortNames1_nodup.append shortNames2_nodup ?_).append shortNames3_nodup ?_
  · intro x h1 h2
    have := mem_shortNames1_len h1
    have := mem_shortNames2_len h2
    omega
  · intro x h12 h3
    have := mem_shortNames3_len h3
    rcases List.mem_append.mp h12 with h1 | h2
    · have := mem_shortNames1_len h1; omega
    · have := mem_shortNames2_len h2; omega

theorem mem_gsn_len_le {x : List Char} (h : x ∈ generate_short_names) :
    x.length ≤ 3 := by
  rw [generate_short_names] at h
  rcases List.mem_append.mp h with h12 | h3
  · rcases List.mem_append.mp h12 with h1 | h2
    · have := mem_shortNames1_len h1; omega
    · have := mem_shortNames2_len h2; omega
  · have := mem_shortNames3_len h3; omega

theorem gsn_len_ge : 100 ≤ generate_short_names.length := by
  have h2 : 63 ≤ shortNames2.length := by
    rw [shortNames2]
    have hdec : valid_singles =
        'a' :: chs "bcdefghijklmnopqrstuvwxyzABCDEFGHIJKLMNOPQRSTUVWXYZ" := rfl
    rw [hdec, List.flatMap_cons, List.length_append]
    have hga : (twoCharGroup 'a').length = 63 := by decide
    omega
  have h1 : shortNames1.length = 52 := by decide
  rw [generate_short_names]
  simp only [List.length_append]
  omega

theorem varMapGo_fst :
    ∀ (vs avail : List (List Char)) (idx : Nat),
      (varMapGo vs avail idx).map Prod.fst = vs := by
  intro vs
  induction vs with
  | nil => intro avail idx; cases avail <;> rfl
  | cons v vs' ih =>
    intro avail idx
    cases avail with
    | nil => simpa [varMapGo] using ih [] (idx + 1)
    | cons s avail' => simpa [varMapGo] using ih avail' (idx + 1)

theorem varMapGo_snd_mem :
    ∀ (vs avail : List (List Char)) (idx : Nat) (x : List Char),
      x ∈ (varMapGo vs avail idx).map Prod.snd →
      x ∈ avail ∨ ∃ j, idx + avail.length ≤ j ∧ x = 'v' :: (Nat.repr j).data := by
  intro vs
  induction vs with
  | nil => intro avail idx x h; simp [varMapGo] at h
  | cons v vs' ih =>
    intro avail idx x h
    cases avail with
    | nil =>
      simp only [varMapGo, List.map_cons, List.mem_cons] at h
      rcases h with rfl | hm
      · exact .inr ⟨idx, by simp, rfl⟩
      · rcases ih [] (idx + 1) x hm with h0 | ⟨j, hj, hx⟩
        · simp at h0
        · refine .inr ⟨j, ?_, hx⟩
          simp only [List.length_nil] at hj ⊢
          omega
    | cons s avail' =>
      simp only [varMapGo, List.map_cons, List.mem_cons] at h
      rcases h with rfl | hm
      · exact .inl (by simp)
      · rcases ih avail' (idx + 1) x hm with h0 | ⟨j, hj, hx⟩
        · exact .inl (List.mem_cons_of_mem _ h0)
        · refine .inr ⟨j, ?_, hx⟩
          simp only [List.length_cons] at hj ⊢
          omega

theorem varMapGo_snd_nodup :
    ∀ (vs avail : List (List Char)) (idx : Nat),
      avail.Nodup → (∀ s ∈ avail, s.length ≤ 3) →
      (∀ j, idx + avail.length ≤ j → 100 ≤ j) →
      ((varMapGo vs avail idx).map Prod.snd).Nodup := by
  intro vs
  induction vs with
  | nil => intro avail idx _ _ _; cases avail <;> simp [varMapGo]
  | cons v vs' ih =>
    intro avail idx hnd hlen hbig
    cases avail with
    | nil =>
      simp only [varMapGo, List.map_cons]
      refine List.nodup_cons.mpr ⟨?_, ih [] (idx + 1) (by simp) (by simp)
        (fun j hj => hbig j (by simp at hj ⊢; omega))⟩
      intro hm
      rcases varMapGo_snd_mem vs' [] (idx + 1) _ hm with h0 | ⟨j, hj, hx⟩
      · simp at h0
      · have hj' : idx + 1 ≤ j := by simpa using hj
        have : idx = j := reprData_inj (by simpa using hx)
        omega
    | cons s avail' =>
      simp only [varMapGo, List.map_cons]
      refine List.nodup_cons.mpr ⟨?_, ih avail' (idx + 1) (List.nodup_cons.mp hnd).2
        (fun t ht => hlen t (List.mem_cons_of_mem _ ht))
        (fun j hj => hbig j (by simp only [List.length_cons] at hj ⊢; omega))⟩
      intro hm
      rcases varMapGo_snd_mem vs' avail' (idx + 1) _ hm with h0 | ⟨j, hj, hx⟩
      · exact (List.nodup_cons.mp hnd).1 h0
      · have hsl : s.length ≤ 3 := hlen s (by simp)
        have h100 : 100 ≤ j := hbig j (by simp only [List.length_cons] at hj ⊢; omega)
        have h3 : 3 ≤ (Nat.repr j).data.length := reprData_length_ge h100
        rw [hx] at hsl
        simp only [List.length_cons] at hsl
        omega

theorem varMapGo_lookup :
    ∀ (vs avail : List (List Char)) (idx k : Nat) (v y : List Char),
      vs.Nodup → vs[k]? = some v → avail[k]? = some y →
      lookupName (varMapGo vs avail idx) v = some y := by
  intro vs
  induction vs with
  | nil => intro avail idx k v y _ hv _; simp at hv
  | cons v0 vs' ih =>
    intro avail idx k v y hnd hv hy
    cases avail with
    | nil => simp at hy
    | cons s0 avail' =>
      cases k with
      | zero =>
        simp only [List.getElem?_cons_zero, Option.some.injEq] at hv hy
        subst hv; subst hy
        simp [varMapGo, lookupName, List.find?]
      | succ n =>
        simp only [List.getElem?_cons_succ] at hv hy
        have hvmem : v ∈ vs' := by
          have := List.getElem?_eq_some.mp hv
          obtain ⟨hlt, hget⟩ := this
          exact hget ▸ List.getElem_mem hlt
        have hne : (v0 == v) = false := by
          rw [beq_eq_false_iff_ne]
          intro he
          exact (List.nodup_cons.mp hnd).1 (he ▸ hvmem)
        have := ih avail' (idx + 1) n v y (List.nodup_cons.mp hnd).2 hv hy
        simpa [varMapGo, lookupName, List.find?, hne] using this

end Minify

namespace Minify

theorem flatMap_two_step (c : Char) (cs : List Char) (n k : Nat) (y : List Char)
    (hk : (twoCharGroup c).length = k) (hkn : k ≤ n)
    (h : (cs.flatMap twoCharGroup)[n - k]? = some y) :
    ((c :: cs).flatMap twoCharGroup)[n]? = some y := by
  rw [List.flatMap_cons, List.getElem?_append_right (by omega)]
  rw [hk]
  exact h

theorem shortNames2_515 : shortNames2[515]? = some (chs "io") := by
  rw [shortNames2]
  rw [show valid_singles = 'a' :: 'b' :: 'c' :: 'd' :: 'e' :: 'f' :: 'g' :: 'h'
    :: 'i' :: chs "jklmnopqrstuvwxyzABCDEFGHIJKLMNOPQRSTUVWXYZ" from rfl]
  refine flatMap_two_step _ _ _ 63 _ (by decide) (by omega) ?_
  refine flatMap_two_step _ _ _ 63 _ (by decide) (by omega) ?_
  refine flatMap_two_step _ _ _ 63 _ (by decide) (by omega) ?_
  refine flatMap_two_step _ _ _ 62 _ (by decide) (by omega) ?_
  refine flatMap_two_step _ _ _ 63 _ (by decide) (by omega) ?_
  refine flatMap_two_step _ _ _ 63 _ (by decide) (by omega) ?_
  refine flatMap_two_step _ _ _ 63 _ (by decide) (by omega) ?_
  refine flatMap_two_step _ _ _ 63 _ (by decide) (by omega) ?_
  rw [List.flatMap_cons, List.getElem?_append_left (by decide)]
  decide

theorem gsn_567 : generate_short_names[567]? = some (chs "io") := by
  have h515 := shortNames2_515
  have hlt : 515 < shortNames2.length := (List.getElem?_eq_some.mp h515).1
  rw [generate_short_names, List.append_assoc,
    List.getElem?_append_right (by decide : shortNames1.length ≤ 567)]
  have h52 : shortNames1.length = 52 := by decide
  rw [h52]
  rw [List.getElem?_append_left (by omega : 567 - 52 < shortNames2.length)]
  exact h515

theorem manyLocals_nodup : manyLocals.Nodup := by
  rw [manyLocals]
  refine List.Nodup.map ?_ (List.nodup_range _)
  intro i j hij
  simp only [List.cons.injEq, true_and] at hij
  have := reprData_inj hij
  omega

theorem manyLocals_567 : manyLocals[567]? = some (chs "z667") := by
  rw [manyLocals, List.getElem?_map, List.getElem?_range (by omega)]
  rfl

end Minify

/-- Claim C7 (counterexample): the renamer's range is not disjoint from the
allow-list. With the 568 distinct locals `z100 .. z667` (their sorted set
enumeration), the rename map of `VariableRenamer.rename` sends `z667` to the
generated short name `io`, which is itself on the `ROBLOX_GLOBALS`
allow-list: a local IS renamed to an allow-listed identifier. -/
theorem rename_map_hits_allow_list :
    Minify.manyLocals.Nodup ∧
      Minify.lookupName (Minify.build_var_map Minify.manyLocals) (chs "z667") =
        some (chs "io") ∧
      chs "io" ∈ Minify.ROBLOX_GLOBALS := by
  refine ⟨Minify.manyLocals_nodup, ?_, by decide⟩
  rw [Minify.build_var_map]
  exact Minify.varMapGo_lookup Minify.manyLocals Minify.generate_short_names 0 567
    (chs "z667") (chs "io") Minify.manyLocals_nodup Minify.manyLocals_567
    Minify.gsn_567

/-- Claim C7 (amended): the rename map of `VariableRenamer.rename` is
injective on any duplicate-free list of local names: its keys are exactly
the locals, and its assigned new names are pairwise distinct (generated
short names are pairwise distinct and never collide with the `v<idx>`
fallback names, whose length exceeds three). Disjointness from the
allow-list, the claim's second half, fails (see the counterexample). -/
theorem build_var_map_injective (locals : List (List Char)) (h : locals.Nodup) :
    (Minify.build_var_map locals).map Prod.fst = locals ∧
      ((Minify.build_var_map locals).map Prod.fst).Nodup ∧
      ((Minify.build_var_map locals).map Prod.snd).Nodup := by
  refine ⟨Minify.varMapGo_fst locals _ 0, ?_, ?_⟩
  · rw [Minify.build_var_map, Minify.varMapGo_fst]; exact h
  · exact Minify.varMapGo_snd_nodup locals _ 0 Minify.generate_short_names_nodup
      (fun s hs => Minify.mem_gsn_len_le hs)
      (fun j hj => le_trans Minify.gsn_len_ge (by omega))

/-- Witness for the amended C7 claim at a concrete two-element local set. -/
theorem build_var_map_injective_witness :
    ([chs "alpha", chs "beta"]).Nodup ∧
      ((Minify.build_var_map [chs "alpha", chs "beta"]).map Prod.fst =
        [chs "alpha", chs "beta"] ∧
      ((Minify.build_var_map [chs "alpha", chs "beta"]).map Prod.fst).Nodup ∧
      ((Minify.build_var_map [chs "alpha", chs "beta"]).map Prod.snd).Nodup) := by
  exact ⟨by decide, build_var_map_injective [chs "alpha", chs "beta"] (by decide)⟩
